import Mathlib

/-!
Verification of `detail_video_info.cpp`.

A shallow embedding of `decode_packet` and `main` of `detail_video_info.cpp`.

The libav and OpenCV calls are external to the repository.  Their results are
inputs of the model: the one-shot calls of `main` are fields of `Input`, the
decoder and the image writer are state machines in `Externals`.  Every call
that matters is recorded as an `Event` of the run.
-/

namespace DetailVideoInfo

/-! ## Constants -/

/-- The enumerator `SUCCESS = 0` of `enum Code`. -/
def SUCCESS : Int := 0

/-- The enumerator `ERROR = -1` of `enum Code`. -/
def ERROR : Int := -1

/-- The libav status `AVERROR(EAGAIN)`, that is `-EAGAIN` with `EAGAIN = 11`. -/
def AVERROR_EAGAIN : Int := -11

/-- The libav status `AVERROR_EOF`, `-MKTAG('E','O','F',' ')`. -/
def AVERROR_EOF : Int := -541478725

/-! ## Data model -/

/-- The values of `AVMediaType` the program distinguishes. -/
inductive AVMediaType
  | VIDEO
  | AUDIO
  | OTHER
  deriving DecidableEq, Repr

/-- A decoder returned by `avcodec_find_decoder`. -/
structure AVCodec where
  id : Nat
  deriving DecidableEq, Repr

/-- The fields of `AVCodecParameters` that the stream scan reads. -/
structure AVCodecParameters where
  codec_id : Nat
  codec_type : AVMediaType
  deriving DecidableEq, Repr

/-- An entry of `pFormatContext->streams`. -/
structure AVStream where
  codecpar : AVCodecParameters
  deriving DecidableEq, Repr

/-- A packet delivered by `av_read_frame`: its stream index and its payload. -/
structure AVPacket where
  stream_index : Int
  data : Nat
  deriving DecidableEq, Repr

/-- The resources `main` acquires, in the order it acquires them. -/
inductive Resource
  | format_context
  | input
  | codec_context
  | packet
  | frame
  deriving DecidableEq, Repr

/-- The observable steps of a run. -/
inductive Event
  | acquire (r : Resource)
  | release (r : Resource)
  | read_frame (p : Option AVPacket)
  | send_packet (p : AVPacket) (res : Int)
  | receive_frame (res : Int)
  | imwrite (path : String) (ok : Bool)
  | packet_unref (p : AVPacket)
  deriving DecidableEq, Repr

/-- The external capabilities used by the packet loop: the decoder, a state
machine over `σ`, and the image writer, a state machine over `τ`. -/
structure Externals (σ τ : Type) where
  avcodec_send_packet : σ → AVPacket → Int × σ
  avcodec_receive_frame : σ → Int × σ
  frame_number : σ → Int
  imwrite : τ → String → Bool × τ

/-! ## `std::ostringstream` -/

/-- An output string stream: the character sequence and the put position. -/
structure ostringstream where
  buf : List Char
  pos : Nat
  deriving DecidableEq, Repr

/-- The constructor `std::ostringstream os(s)`: the sequence is `s` and, the
stream not being opened at the end, the put position is its start. -/
def ostringstream.ofString (s : String) : ostringstream :=
  ⟨s.data, 0⟩

/-- Insertion of characters: they overwrite the sequence from the put
position on and extend it past its end. -/
def ostringstream.put (os : ostringstream) (cs : List Char) : ostringstream :=
  ⟨os.buf.take os.pos ++ cs ++ os.buf.drop (os.pos + cs.length), os.pos + cs.length⟩

/-- The expression `os << n` for an `int`: the decimal digits, after a minus
sign when `n` is negative. -/
def ostringstream.putInt (os : ostringstream) (n : Int) : ostringstream :=
  os.put (toString n).data

/-- The expression `os << s` for a string literal. -/
def ostringstream.putStr (os : ostringstream) (s : String) : ostringstream :=
  os.put s.data

/-- The member `os.str()`: the whole character sequence. -/
def ostringstream.str (os : ostringstream) : String :=
  ⟨os.buf⟩

/-- The path `decode_packet` passes to `cv::imwrite` for frame number `n`:
`os("frame")`, then `os << n << ".jpg"`, then `os.str()`. -/
def frame_path (n : Int) : String :=
  (((ostringstream.ofString "frame").putInt n).putStr ".jpg").str

/-! ## `decode_packet` -/

/-- What a call of `decode_packet` leaves behind: the returned status, the
decoder and writer states, and the events of the call. -/
structure DecodeResult (σ τ : Type) where
  res : Int
  dec : σ
  wr : τ
  trace : List Event

/-- The function `decode_packet`: one send, one receive, and for a received
frame one `cv::imwrite` whose result is not looked at. -/
def decode_packet {σ τ : Type} (ext : Externals σ τ) (pPacket : AVPacket)
    (dec : σ) (wr : τ) : DecodeResult σ τ :=
  let sent := ext.avcodec_send_packet dec pPacket
  if sent.1 ≠ SUCCESS then
    ⟨sent.1, sent.2, wr, [Event.send_packet pPacket sent.1]⟩
  else
    let recv := ext.avcodec_receive_frame sent.2
    if recv.1 = AVERROR_EAGAIN ∨ recv.1 = AVERROR_EOF then
      ⟨SUCCESS, recv.2, wr,
        [Event.send_packet pPacket sent.1, Event.receive_frame recv.1]⟩
    else if recv.1 ≠ SUCCESS then
      ⟨recv.1, recv.2, wr,
        [Event.send_packet pPacket sent.1, Event.receive_frame recv.1]⟩
    else
      let path := frame_path (ext.frame_number recv.2)
      let written := ext.imwrite wr path
      ⟨recv.1, recv.2, written.2,
        [Event.send_packet pPacket sent.1, Event.receive_frame recv.1,
         Event.imwrite path written.1]⟩

/-! ## The packet loop of `main` -/

/-- What the packet loop leaves behind: `res`, `count_of_packets`, the decoder
and writer states, and the events of the loop. -/
structure LoopResult (σ τ : Type) where
  res : Int
  count_of_packets : Int
  dec : σ
  wr : τ
  trace : List Event

/-- The loop `while (av_read_frame(pFormatContext, pPacket) >= 0)`.  The list
holds the packets the successful reads deliver, in container order; the read
after the last one returns a negative value. -/
def packet_loop {σ τ : Type} (ext : Externals σ τ) (video_stream_index : Int) :
    List AVPacket → Int → Int → σ → τ → LoopResult σ τ
  | [], res, count_of_packets, dec, wr =>
    ⟨res, count_of_packets, dec, wr, [Event.read_frame none]⟩
  | p :: ps, res, count_of_packets, dec, wr =>
    if p.stream_index = video_stream_index then
      let d := decode_packet ext p dec wr
      if d.res ≠ SUCCESS then
        ⟨d.res, count_of_packets, d.dec, d.wr,
          Event.read_frame (some p) :: (d.trace ++ [Event.packet_unref p])⟩
      else if count_of_packets - 1 ≤ 0 then
        ⟨d.res, count_of_packets - 1, d.dec, d.wr,
          Event.read_frame (some p) :: d.trace⟩
      else
        let r := packet_loop ext video_stream_index ps d.res (count_of_packets - 1) d.dec d.wr
        ⟨r.res, r.count_of_packets, r.dec, r.wr,
          Event.read_frame (some p) :: (d.trace ++ Event.packet_unref p :: r.trace)⟩
    else
      let r := packet_loop ext video_stream_index ps res count_of_packets dec wr
      ⟨r.res, r.count_of_packets, r.dec, r.wr,
        Event.read_frame (some p) :: Event.packet_unref p :: r.trace⟩

/-! ## The stream scan of `main` -/

/-- The three variables the stream scan assigns. -/
structure Selection where
  video_stream_index : Int
  pCodec : Option AVCodec
  pCodecParameters : Option AVCodecParameters
  deriving DecidableEq, Repr

/-- The values before the scan: `-1`, `nullptr`, `nullptr`. -/
def Selection.none : Selection :=
  ⟨-1, Option.none, Option.none⟩

/-- The body of the `for` loop over the streams, at index `i`. -/
def scan_step (avcodec_find_decoder : Nat → Option AVCodec) (sel : Selection)
    (i : Nat) (st : AVStream) : Selection :=
  match avcodec_find_decoder st.codecpar.codec_id with
  | Option.none => sel
  | some pLocalCodec =>
    if st.codecpar.codec_type = AVMediaType.VIDEO then
      if sel.video_stream_index = -1 then
        ⟨(i : Int), some pLocalCodec, some st.codecpar⟩
      else sel
    else sel

/-- The loop `for (int i = 0; i < nb_streams; i++)`, from index `i` on. -/
def scan_streams (avcodec_find_decoder : Nat → Option AVCodec) :
    List AVStream → Nat → Selection → Selection
  | [], _, sel => sel
  | st :: rest, i, sel =>
    scan_streams avcodec_find_decoder rest (i + 1) (scan_step avcodec_find_decoder sel i st)

/-! ## The cleanup chain of `main` -/

/-- The pointer variables of `main` that the cleanup labels use: `true` is a
non-null pointer. -/
structure Handles where
  pFormatContext : Bool
  pCodecContext : Bool
  pPacket : Bool
  pFrame : Bool
  deriving DecidableEq, Repr

/-- The label `free_context`: `avformat_free_context(pFormatContext)`, which
does nothing for a null pointer. -/
def free_context (h : Handles) : List Event :=
  if h.pFormatContext then [Event.release Resource.format_context] else []

/-- The label `close_input`: `avformat_close_input(&pFormatContext)` closes the
input, frees the context and sets the pointer to null; control then falls
through to `free_context`. -/
def close_input (h : Handles) : List Event :=
  (if h.pFormatContext then
    [Event.release Resource.input, Event.release Resource.format_context]
   else []) ++ free_context ⟨false, h.pCodecContext, h.pPacket, h.pFrame⟩

/-- The label `free_codec_context`: `avcodec_free_context(&pCodecContext)`, then
fall through. -/
def free_codec_context (h : Handles) : List Event :=
  (if h.pCodecContext then [Event.release Resource.codec_context] else []) ++
    close_input ⟨h.pFormatContext, false, h.pPacket, h.pFrame⟩

/-- The label `free_packet`: `av_packet_free(&pPacket)`, then fall through. -/
def free_packet (h : Handles) : List Event :=
  (if h.pPacket then [Event.release Resource.packet] else []) ++
    free_codec_context ⟨h.pFormatContext, h.pCodecContext, false, h.pFrame⟩

/-- The label `free_frame`: `av_frame_free(&pFrame)`, then fall through. -/
def free_frame (h : Handles) : List Event :=
  (if h.pFrame then [Event.release Resource.frame] else []) ++
    free_packet ⟨h.pFormatContext, h.pCodecContext, h.pPacket, false⟩

/-! ## `main` -/

/-- The results of the one-shot external calls of `main` and the content of
the container: `argv` is the argument count (the source names it so), a `Bool`
tells whether an allocation returned a non-null pointer, an `Int` is a
returned status. -/
structure Input where
  argv : Int
  avformat_alloc_context : Bool
  avformat_open_input : Int
  avformat_find_stream_info : Int
  streams : List AVStream
  avcodec_find_decoder : Nat → Option AVCodec
  avcodec_alloc_context3 : Bool
  avcodec_parameters_to_context : Int
  avcodec_open2 : Int
  av_packet_alloc : Bool
  av_frame_alloc : Bool
  packets : List AVPacket

/-- The stream scan of `main` on an input. -/
def select_stream (inp : Input) : Selection :=
  scan_streams inp.avcodec_find_decoder inp.streams 0 Selection.none

/-- The value `main` returns and the events of the run. -/
structure MainResult where
  ret : Int
  trace : List Event
  deriving DecidableEq, Repr

/-- The function `main`.  `dec` is the state of the decoder once
`avcodec_open2` has succeeded, `wr` the state of the image writer.
A failed `avformat_open_input` frees the context it was given and sets the
pointer to null. -/
def main {σ τ : Type} (ext : Externals σ τ) (inp : Input) (dec : σ) (wr : τ) :
    MainResult :=
  if ¬ (inp.argv > 1) then ⟨ERROR, []⟩
  else if inp.avformat_alloc_context = false then ⟨ERROR, []⟩
  else if inp.avformat_open_input ≠ SUCCESS then
    ⟨inp.avformat_open_input,
      [Event.acquire Resource.format_context, Event.release Resource.format_context] ++
        free_context ⟨false, false, false, false⟩⟩
  else if inp.avformat_find_stream_info ≠ SUCCESS then
    ⟨inp.avformat_find_stream_info,
      [Event.acquire Resource.format_context, Event.acquire Resource.input] ++
        close_input ⟨true, false, false, false⟩⟩
  else if (select_stream inp).video_stream_index = -1 then
    ⟨ERROR,
      [Event.acquire Resource.format_context, Event.acquire Resource.input] ++
        close_input ⟨true, false, false, false⟩⟩
  else if inp.avcodec_alloc_context3 = false then
    ⟨ERROR,
      [Event.acquire Resource.format_context, Event.acquire Resource.input] ++
        close_input ⟨true, false, false, false⟩⟩
  else if inp.avcodec_parameters_to_context ≠ SUCCESS then
    ⟨inp.avcodec_parameters_to_context,
      [Event.acquire Resource.format_context, Event.acquire Resource.input,
       Event.acquire Resource.codec_context] ++
        free_codec_context ⟨true, true, false, false⟩⟩
  else if inp.avcodec_open2 ≠ SUCCESS then
    ⟨inp.avcodec_open2,
      [Event.acquire Resource.format_context, Event.acquire Resource.input,
       Event.acquire Resource.codec_context] ++
        free_codec_context ⟨true, true, false, false⟩⟩
  else if inp.av_packet_alloc = false then
    ⟨inp.avcodec_open2,
      [Event.acquire Resource.format_context, Event.acquire Resource.input,
       Event.acquire Resource.codec_context] ++
        free_codec_context ⟨true, true, false, false⟩⟩
  else if inp.av_frame_alloc = false then
    ⟨inp.avcodec_open2,
      [Event.acquire Resource.format_context, Event.acquire Resource.input,
       Event.acquire Resource.codec_context, Event.acquire Resource.packet] ++
        free_packet ⟨true, true, true, false⟩⟩
  else
    let r := packet_loop ext (select_stream inp).video_stream_index inp.packets
      inp.avcodec_open2 8 dec wr
    ⟨r.res,
      [Event.acquire Resource.format_context, Event.acquire Resource.input,
       Event.acquire Resource.codec_context, Event.acquire Resource.packet,
       Event.acquire Resource.frame] ++ r.trace ++ free_frame ⟨true, true, true, true⟩⟩

/-! ## Observations on a run -/

/-- The packet an event hands to `avcodec_send_packet`, if it is a send. -/
def submittedOf : Event → Option AVPacket
  | Event.send_packet p _ => some p
  | _ => none

/-- The packets handed to `avcodec_send_packet`, in order. -/
def submitted (trace : List Event) : List AVPacket :=
  trace.filterMap submittedOf

/-- The packet an event reads, if it is a successful `av_read_frame`. -/
def packetReadOf : Event → Option AVPacket
  | Event.read_frame (some p) => some p
  | _ => none

/-- The packets `av_read_frame` delivered, in order. -/
def packetsRead (trace : List Event) : List AVPacket :=
  trace.filterMap packetReadOf

/-- The path an event passes to `cv::imwrite`, if it is a call of it. -/
def writeCallOf : Event → Option String
  | Event.imwrite path _ => some path
  | _ => none

/-- The paths `cv::imwrite` was called with, in order. -/
def writeCalls (trace : List Event) : List String :=
  trace.filterMap writeCallOf

/-- The path of the file an event writes: a call of `cv::imwrite` that
reported success. -/
def fileWrittenOf : Event → Option String
  | Event.imwrite path true => some path
  | _ => none

/-- The paths of the image files written, in order. -/
def filesWritten (trace : List Event) : List String :=
  trace.filterMap fileWrittenOf

/-- The status of an event that `decode_packet` treats as fatal: a send that
did not return `SUCCESS`, or a receive that returned something else than
`SUCCESS`, `AVERROR(EAGAIN)` and `AVERROR_EOF`. -/
def fatalStatusOf : Event → Option Int
  | Event.send_packet _ res => if res ≠ SUCCESS then some res else none
  | Event.receive_frame res =>
    if res ≠ SUCCESS ∧ res ≠ AVERROR_EAGAIN ∧ res ≠ AVERROR_EOF then some res else none
  | _ => none

/-- The fatal statuses the decoder returned during a run, in order. -/
def fatalStatuses (trace : List Event) : List Int :=
  trace.filterMap fatalStatusOf

/-- The event is a call of the decoder or of the image writer. -/
def isDecoderEvent : Event → Bool
  | Event.send_packet _ _ => true
  | Event.receive_frame _ => true
  | Event.imwrite _ _ => true
  | _ => false

/-- The calls of the decoder and of the image writer during a run, with
their results, in order. -/
def decoderEvents (trace : List Event) : List Event :=
  trace.filter isDecoderEvent

/-- The event is an acquisition or a release of a resource. -/
def isResourceEvent : Event → Bool
  | Event.acquire _ => true
  | Event.release _ => true
  | _ => false

/-- The acquisitions and releases of a run, in order. -/
def resourceEvents (trace : List Event) : List Event :=
  trace.filter isResourceEvent

/-- The resource an event acquires. -/
def acquiredOf : Event → Option Resource
  | Event.acquire r => some r
  | _ => none

/-- The resources acquired, in order. -/
def acquired (trace : List Event) : List Resource :=
  trace.filterMap acquiredOf

/-- The resource an event releases. -/
def releasedOf : Event → Option Resource
  | Event.release r => some r
  | _ => none

/-- The resources released, in order. -/
def released (trace : List Event) : List Resource :=
  trace.filterMap releasedOf

/-- Replays the acquisitions and releases of a run on the stack of held
resources: an acquisition pushes, a release must find its resource on top and
pops it.  The result is the stack at the end, or `none` when a release found
something else on top or nothing. -/
def heldAfter : List Event → List Resource → Option (List Resource)
  | [], held => some held
  | Event.acquire r :: rest, held => heldAfter rest (r :: held)
  | Event.release r :: rest, held =>
    match held with
    | top :: below => if top = r then heldAfter rest below else none
    | [] => none
  | _ :: rest, held => heldAfter rest held

/-- Every packet read from another stream than `video_stream_index` is
released right after the read, before anything else happens. -/
def skippedReleased (video_stream_index : Int) : List Event → Prop
  | [] => True
  | Event.read_frame (some p) :: rest =>
    (p.stream_index ≠ video_stream_index →
      ∃ tail, rest = Event.packet_unref p :: tail) ∧ skippedReleased video_stream_index rest
  | _ :: rest => skippedReleased video_stream_index rest

/-- An event with the writer's verdict forgotten: a call of `cv::imwrite` is
shown as successful. -/
def forgetWriteResult : Event → Event
  | Event.imwrite path _ => Event.imwrite path true
  | e => e

/-- The run with the writer's verdicts forgotten. -/
def forgetWriteResults (trace : List Event) : List Event :=
  trace.map forgetWriteResult

/-- A stream qualifies for selection: a decoder exists for its codec and it
is of video kind. -/
def qualifies (avcodec_find_decoder : Nat → Option AVCodec) (st : AVStream) : Prop :=
  (avcodec_find_decoder st.codecpar.codec_id).isSome = true ∧
    st.codecpar.codec_type = AVMediaType.VIDEO

instance (fd : Nat → Option AVCodec) (st : AVStream) : Decidable (qualifies fd st) := by
  unfold qualifies; infer_instance

/-- The packets of the selected stream, in container order. -/
def selectedPackets (video_stream_index : Int) (packets : List AVPacket) : List AVPacket :=
  packets.filter fun p => p.stream_index = video_stream_index

/-- The input reaches the packet loop: every step of `main` before it
succeeds and the stream scan selects a stream. -/
def reachesLoop (inp : Input) : Prop :=
  inp.argv > 1 ∧ inp.avformat_alloc_context = true ∧ inp.avformat_open_input = SUCCESS ∧
    inp.avformat_find_stream_info = SUCCESS ∧ (select_stream inp).video_stream_index ≠ -1 ∧
    inp.avcodec_alloc_context3 = true ∧ inp.avcodec_parameters_to_context = SUCCESS ∧
    inp.avcodec_open2 = SUCCESS ∧ inp.av_packet_alloc = true ∧ inp.av_frame_alloc = true

instance (inp : Input) : Decidable (reachesLoop inp) := by
  unfold reachesLoop; infer_instance

/-- The input with another packet sequence in the container. -/
def Input.withPackets (inp : Input) (packets : List AVPacket) : Input :=
  ⟨inp.argv, inp.avformat_alloc_context, inp.avformat_open_input,
    inp.avformat_find_stream_info, inp.streams, inp.avcodec_find_decoder,
    inp.avcodec_alloc_context3, inp.avcodec_parameters_to_context, inp.avcodec_open2,
    inp.av_packet_alloc, inp.av_frame_alloc, packets⟩

/-- The externals with another image writer. -/
def Externals.withWriter {σ τ υ : Type} (ext : Externals σ τ)
    (imwrite : υ → String → Bool × υ) : Externals σ υ :=
  ⟨ext.avcodec_send_packet, ext.avcodec_receive_frame, ext.frame_number, imwrite⟩

/-- The frames obtained from a packet sequence the way `decode_packet` asks
for them: each packet is sent and followed by a single receive. -/
def framesReceived {σ τ : Type} (ext : Externals σ τ) : List AVPacket → σ → Nat
  | [], _ => 0
  | p :: ps, dec =>
    let sent := ext.avcodec_send_packet dec p
    let recv := ext.avcodec_receive_frame sent.2
    (if sent.1 = SUCCESS ∧ recv.1 = SUCCESS then 1 else 0) + framesReceived ext ps recv.2

/-- The frames a decoder yields when asked again and again, at most `fuel`
times, until a receive returns no frame; the decoder state after it. -/
def drainFrames {σ τ : Type} (ext : Externals σ τ) : Nat → σ → Nat × σ
  | 0, dec => (0, dec)
  | fuel + 1, dec =>
    let recv := ext.avcodec_receive_frame dec
    if recv.1 = SUCCESS then
      ((drainFrames ext fuel recv.2).1 + 1, (drainFrames ext fuel recv.2).2)
    else (0, recv.2)

/-- The number of frames the decoder can produce from a packet sequence, in
the spec's words: submit each packet, then repeatedly receive until the
decoder needs more input, counting every frame. -/
def framesAvailable {σ τ : Type} (ext : Externals σ τ) (fuel : Nat) :
    List AVPacket → σ → Nat
  | [], _ => 0
  | p :: ps, dec =>
    let sent := ext.avcodec_send_packet dec p
    let drained := drainFrames ext fuel sent.2
    drained.1 + framesAvailable ext fuel ps drained.2

/-! ## Sample decoders, writers and inputs -/

/-- The libav status `AVERROR_INVALIDDATA`. -/
def AVERROR_INVALIDDATA : Int := -1094995529

/-- A writer that stores every image. -/
def goodWriter : Unit → String → Bool × Unit :=
  fun _ _ => (true, ())

/-- A writer that fails on every image. -/
def failingWriter : Unit → String → Bool × Unit :=
  fun _ _ => (false, ())

/-- A decoder that yields one frame for each packet it is sent and rejects a
packet with payload `0`; its state is the number of frames it has produced. -/
def directDecoder : Externals Nat Unit :=
  ⟨fun n p => if p.data = 0 then (AVERROR_INVALIDDATA, n) else (SUCCESS, n),
   fun n => (SUCCESS, n + 1),
   fun n => (n : Int),
   goodWriter⟩

/-- A decoder that holds one packet back: it yields a frame only while it
holds two packets or more.  Its state is the number of packets it holds and
the number of frames it has produced. -/
def delayedDecoder : Externals (Nat × Nat) Unit :=
  ⟨fun s _ => (SUCCESS, (s.1 + 1, s.2)),
   fun s => if 2 ≤ s.1 then (SUCCESS, (s.1 - 1, s.2 + 1)) else (AVERROR_EAGAIN, s),
   fun s => (s.2 : Int),
   goodWriter⟩

/-- A container with an audio stream 0 and a video stream 1, both decodable,
on which every step before the packet loop succeeds. -/
def sampleInput (packets : List AVPacket) : Input :=
  ⟨2, true, SUCCESS, SUCCESS,
   [⟨⟨86018, AVMediaType.AUDIO⟩⟩, ⟨⟨27, AVMediaType.VIDEO⟩⟩],
   fun id => some ⟨id⟩, true, SUCCESS, SUCCESS, true, true, packets⟩

/-- The sample container when `av_packet_alloc` or `av_frame_alloc` returns a
null pointer: `packetOk` and `frameOk` tell which allocation succeeds. -/
def allocFailureInput (packetOk frameOk : Bool) : Input :=
  ⟨2, true, SUCCESS, SUCCESS,
   [⟨⟨86018, AVMediaType.AUDIO⟩⟩, ⟨⟨27, AVMediaType.VIDEO⟩⟩],
   fun id => some ⟨id⟩, true, SUCCESS, SUCCESS, packetOk, frameOk, []⟩

/-- A container with a decodable audio stream 0 and a video stream 1 whose
codec has no decoder; it opens and probes. -/
def noVideoInput : Input :=
  ⟨2, true, SUCCESS, SUCCESS,
   [⟨⟨86018, AVMediaType.AUDIO⟩⟩, ⟨⟨999, AVMediaType.VIDEO⟩⟩],
   fun id => if id = 999 then none else some ⟨id⟩, true, SUCCESS, SUCCESS, true, true,
   [⟨0, 1⟩, ⟨1, 2⟩]⟩

/-- The packets with the payloads `1, ..., n` of the video stream 1. -/
def videoPackets (n : Nat) : List AVPacket :=
  (List.range n).map fun i => ⟨1, i + 1⟩

/-- The number a list of decimal digit characters denotes, continuing from
the number `start` read so far. -/
def decimalValue (cs : List Char) (start : Nat) : Nat :=
  cs.foldl (fun a c => 10 * a + (c.toNat - 48)) start

/-! # Theorems -/

/-! ## Decimal digits -/

theorem digitChar_value (k : Nat) (hk : k < 10) : (Nat.digitChar k).toNat - 48 = k := by
  interval_cases k <;> rfl

theorem digitChar_ne_minus (k : Nat) (hk : k < 10) : Nat.digitChar k ≠ '-' := by
  interval_cases k <;> decide

theorem decimalValue_toDigitsCore (fuel : Nat) : ∀ (n : Nat) (acc : List Char), n < fuel →
    decimalValue (Nat.toDigitsCore 10 fuel n acc) 0 = decimalValue acc n := by
  induction fuel with
  | zero => intro n acc h; omega
  | succ fuel ih =>
    intro n acc h
    simp only [Nat.toDigitsCore]
    split
    · rename_i h0
      have hn : n < 10 := by omega
      simp only [decimalValue, List.foldl_cons]
      rw [digitChar_value _ (Nat.mod_lt _ (by norm_num)), Nat.mod_eq_of_lt hn]
      simp
    · rename_i h0
      rw [ih (n / 10) _ (by omega)]
      simp only [decimalValue, List.foldl_cons]
      rw [digitChar_value _ (Nat.mod_lt _ (by norm_num))]
      congr 1
      omega

theorem toDigitsCore_no_minus (fuel : Nat) : ∀ (n : Nat) (acc : List Char),
    (∀ c ∈ acc, c ≠ '-') → ∀ c ∈ Nat.toDigitsCore 10 fuel n acc, c ≠ '-' := by
  induction fuel with
  | zero => intro n acc h; simpa [Nat.toDigitsCore] using h
  | succ fuel ih =>
    intro n acc h
    have hd : ∀ c ∈ Nat.digitChar (n % 10) :: acc, c ≠ '-' := by
      intro c hc
      rcases List.mem_cons.1 hc with rfl | hc
      · exact digitChar_ne_minus _ (Nat.mod_lt _ (by norm_num))
      · exact h c hc
    simp only [Nat.toDigitsCore]
    split
    · exact hd
    · exact ih _ _ hd

theorem toDigitsCore_length_le (fuel : Nat) : ∀ (n : Nat) (acc : List Char),
    acc.length ≤ (Nat.toDigitsCore 10 fuel n acc).length := by
  induction fuel with
  | zero => intro n acc; simp [Nat.toDigitsCore]
  | succ fuel ih =>
    intro n acc
    simp only [Nat.toDigitsCore]
    split
    · simp
    · exact le_trans (by simp) (ih _ _)

theorem toDigits_length_pos (n : Nat) : 1 ≤ (Nat.toDigits 10 n).length := by
  unfold Nat.toDigits
  simp only [Nat.toDigitsCore]
  split
  · simp
  · exact le_trans (by simp) (toDigitsCore_length_le _ _ _)

theorem toDigits_injective : Function.Injective (Nat.toDigits 10) := by
  intro n m h
  have hn := decimalValue_toDigitsCore (n + 1) n [] (by omega)
  have hm := decimalValue_toDigitsCore (m + 1) m [] (by omega)
  unfold Nat.toDigits at h
  rw [h, hm] at hn
  simpa [decimalValue] using hn.symm

/-- The characters `os << n` inserts for an `int`. -/
theorem int_toString_data (n : Int) :
    (toString n).data = match n with
      | Int.ofNat m => Nat.toDigits 10 m
      | Int.negSucc m => '-' :: Nat.toDigits 10 (m + 1) := by
  cases n <;> rfl


theorem int_toString_injective : Function.Injective (fun n : Int => (toString n).data) := by
  intro n m h
  simp only [int_toString_data] at h
  cases n with
  | ofNat a =>
    cases m with
    | ofNat b => simp only at h; rw [toDigits_injective h]
    | negSucc b =>
      simp only at h
      have := toDigitsCore_no_minus (a + 1) a [] (by simp) '-' (by
        show '-' ∈ Nat.toDigits 10 a
        rw [h]; simp)
      exact absurd rfl this
  | negSucc a =>
    cases m with
    | ofNat b =>
      simp only at h
      have := toDigitsCore_no_minus (b + 1) b [] (by simp) '-' (by
        show '-' ∈ Nat.toDigits 10 b
        rw [← h]; simp)
      exact absurd rfl this
    | negSucc b =>
      simp only [List.cons.injEq, true_and] at h
      have := toDigits_injective h
      simp only [add_left_inj] at this
      rw [this]

theorem int_toString_length_pos (n : Int) : 1 ≤ (toString n).data.length := by
  rw [int_toString_data]
  cases n with
  | ofNat a => exact toDigits_length_pos a
  | negSucc a => simp

theorem put_put_buf (d : List Char) (hd : 1 ≤ d.length) :
    (((ostringstream.ofString "frame").put d).put ".jpg".data).buf = d ++ ".jpg".data := by
  have hF : "frame".data = ['f', 'r', 'a', 'm', 'e'] := rfl
  have hJ : ".jpg".data = ['.', 'j', 'p', 'g'] := rfl
  simp only [ostringstream.ofString, ostringstream.put, hF, hJ, List.take_zero, List.nil_append,
    Nat.zero_add, List.length_cons, List.length_nil]
  rw [List.take_left' rfl]
  rw [List.drop_append_eq_append_drop]
  have h1 : List.drop (d.length + (0 + 1 + 1 + 1 + 1)) d = [] := List.drop_eq_nil_of_le (by omega)
  rw [h1, List.drop_drop]
  rw [List.drop_eq_nil_of_le (by simp; omega)]
  simp

theorem frame_path_data (n : Int) : (frame_path n).data = (toString n).data ++ ".jpg".data := by
  unfold frame_path ostringstream.putInt ostringstream.putStr ostringstream.str
  exact put_put_buf _ (int_toString_length_pos n)

theorem frame_path_eq (n : Int) : frame_path n = toString n ++ ".jpg" := by
  apply String.ext
  rw [frame_path_data, String.data_append]

theorem frame_path_injective : Function.Injective frame_path := by
  intro n m h
  have h2 : (frame_path n).data = (frame_path m).data := by rw [h]
  rw [frame_path_data, frame_path_data] at h2
  exact int_toString_injective (List.append_cancel_right h2)


/-! ## Facts about `decode_packet` -/

theorem decode_packet_submitted {σ τ : Type} (ext : Externals σ τ) (p : AVPacket) (dec : σ)
    (wr : τ) : List.filterMap submittedOf (decode_packet ext p dec wr).trace = [p] := by
  simp only [decode_packet]
  split_ifs <;> simp [submittedOf]

theorem decode_packet_packetsRead {σ τ : Type} (ext : Externals σ τ) (p : AVPacket) (dec : σ)
    (wr : τ) : List.filterMap packetReadOf (decode_packet ext p dec wr).trace = [] := by
  simp only [decode_packet]
  split_ifs <;> simp [packetReadOf]

theorem decode_packet_resourceEvents {σ τ : Type} (ext : Externals σ τ) (p : AVPacket)
    (dec : σ) (wr : τ) : List.filter isResourceEvent (decode_packet ext p dec wr).trace = [] := by
  simp only [decode_packet]
  split_ifs <;> simp [isResourceEvent]

theorem decode_packet_decoderEvents {σ τ : Type} (ext : Externals σ τ) (p : AVPacket)
    (dec : σ) (wr : τ) :
    List.filter isDecoderEvent (decode_packet ext p dec wr).trace =
      (decode_packet ext p dec wr).trace := by
  simp only [decode_packet]
  split_ifs <;> simp [isDecoderEvent]

theorem decode_packet_writeCalls_length {σ τ : Type} (ext : Externals σ τ) (p : AVPacket)
    (dec : σ) (wr : τ) :
    (List.filterMap writeCallOf (decode_packet ext p dec wr).trace).length ≤ 1 := by
  simp only [decode_packet]
  split_ifs <;> simp [writeCallOf]

theorem decode_packet_writeCalls_of_error {σ τ : Type} (ext : Externals σ τ) (p : AVPacket)
    (dec : σ) (wr : τ) (h : (decode_packet ext p dec wr).res ≠ SUCCESS) :
    List.filterMap writeCallOf (decode_packet ext p dec wr).trace = [] := by
  simp only [decode_packet] at h ⊢
  split_ifs at h ⊢ <;> simp_all [writeCallOf]

theorem decode_packet_fatalStatuses {σ τ : Type} (ext : Externals σ τ) (p : AVPacket)
    (dec : σ) (wr : τ) :
    List.filterMap fatalStatusOf (decode_packet ext p dec wr).trace =
      if (decode_packet ext p dec wr).res ≠ SUCCESS then [(decode_packet ext p dec wr).res]
      else [] := by
  simp only [decode_packet]
  split_ifs <;> simp_all [fatalStatusOf, SUCCESS, AVERROR_EAGAIN, AVERROR_EOF]
  omega

/-- A successful call of `decode_packet` has sent the packet, received once,
and called the writer exactly when the receive returned a frame. -/
theorem decode_packet_of_success {σ τ : Type} (ext : Externals σ τ) (p : AVPacket)
    (dec : σ) (wr : τ) (h : (decode_packet ext p dec wr).res = SUCCESS) :
    (ext.avcodec_send_packet dec p).1 = SUCCESS ∧
    (decode_packet ext p dec wr).dec =
      (ext.avcodec_receive_frame (ext.avcodec_send_packet dec p).2).2 ∧
    (List.filterMap writeCallOf (decode_packet ext p dec wr).trace).length =
      (if (ext.avcodec_send_packet dec p).1 = SUCCESS ∧
          (ext.avcodec_receive_frame (ext.avcodec_send_packet dec p).2).1 = SUCCESS
        then 1 else 0) := by
  simp only [decode_packet] at h ⊢
  split_ifs at h ⊢ <;> simp_all [writeCallOf, SUCCESS, AVERROR_EAGAIN, AVERROR_EOF]

/-! ## Facts about the packet loop -/

theorem packet_loop_submitted_length {σ τ : Type} (ext : Externals σ τ) (v : Int) :
    ∀ (ps : List AVPacket) (res c : Int) (dec : σ) (wr : τ),
      (submitted (packet_loop ext v ps res c dec wr).trace).length ≤ (c - 1).toNat + 1 := by
  intro ps
  induction ps with
  | nil => intro res c dec wr; simp [packet_loop, submitted, submittedOf]
  | cons p ps ih =>
    intro res c dec wr
    simp only [packet_loop]
    split_ifs with h1 h2 h3
    · simp [submitted, submittedOf, List.filterMap_append, decode_packet_submitted]
    · simp [submitted, submittedOf, List.filterMap_append, decode_packet_submitted]
    · have := ih (decode_packet ext p dec wr).res (c - 1) (decode_packet ext p dec wr).dec
        (decode_packet ext p dec wr).wr
      simp only [submitted] at this
      simp [submitted, submittedOf, List.filterMap_append, decode_packet_submitted]
      omega
    · have := ih res c dec wr
      simp only [submitted] at this
      simp [submitted, submittedOf]
      omega

theorem packet_loop_writeCalls_length {σ τ : Type} (ext : Externals σ τ) (v : Int) :
    ∀ (ps : List AVPacket) (res c : Int) (dec : σ) (wr : τ),
      (writeCalls (packet_loop ext v ps res c dec wr).trace).length ≤ (c - 1).toNat + 1 := by
  intro ps
  induction ps with
  | nil => intro res c dec wr; simp [packet_loop, writeCalls, writeCallOf]
  | cons p ps ih =>
    intro res c dec wr
    have hd := decode_packet_writeCalls_length ext p dec wr
    simp only [packet_loop]
    split_ifs with h1 h2 h3
    · simp [writeCalls, writeCallOf, List.filterMap_append]
      omega
    · simp [writeCalls, writeCallOf, List.filterMap_append]
      omega
    · have := ih (decode_packet ext p dec wr).res (c - 1) (decode_packet ext p dec wr).dec
        (decode_packet ext p dec wr).wr
      simp only [writeCalls] at this
      simp [writeCalls, writeCallOf, List.filterMap_append]
      omega
    · have := ih res c dec wr
      simp only [writeCalls] at this
      simp [writeCalls, writeCallOf]
      omega

theorem packet_loop_resourceEvents {σ τ : Type} (ext : Externals σ τ) (v : Int) :
    ∀ (ps : List AVPacket) (res c : Int) (dec : σ) (wr : τ),
      resourceEvents (packet_loop ext v ps res c dec wr).trace = [] := by
  intro ps
  induction ps with
  | nil => intro res c dec wr; simp [packet_loop, resourceEvents, isResourceEvent]
  | cons p ps ih =>
    intro res c dec wr
    simp only [packet_loop]
    split_ifs with h1 h2 h3
    · simp [resourceEvents, isResourceEvent, List.filter_append, decode_packet_resourceEvents]
    · simp [resourceEvents, isResourceEvent, List.filter_append, decode_packet_resourceEvents]
    · have := ih (decode_packet ext p dec wr).res (c - 1) (decode_packet ext p dec wr).dec
        (decode_packet ext p dec wr).wr
      simp only [resourceEvents] at this
      simp [resourceEvents, isResourceEvent, List.filter_append, decode_packet_resourceEvents,
        this]
    · have := ih res c dec wr
      simp only [resourceEvents] at this
      simp [resourceEvents, isResourceEvent, this]


theorem filesWritten_length_le (t : List Event) :
    (filesWritten t).length ≤ (writeCalls t).length := by
  induction t with
  | nil => simp [filesWritten, writeCalls]
  | cons e t ih =>
    simp only [filesWritten, writeCalls] at ih ⊢
    cases e with
    | imwrite path ok =>
      cases ok <;> simp [fileWrittenOf, writeCallOf] <;> omega
    | _ => simpa [fileWrittenOf, writeCallOf] using ih

theorem packet_loop_selected_read {σ τ : Type} (ext : Externals σ τ) (v : Int) :
    ∀ (ps : List AVPacket) (res c : Int) (dec : σ) (wr : τ),
      selectedPackets v (packetsRead (packet_loop ext v ps res c dec wr).trace) =
        submitted (packet_loop ext v ps res c dec wr).trace := by
  intro ps
  induction ps with
  | nil =>
    intro res c dec wr
    simp [packet_loop, submitted, submittedOf, packetsRead, packetReadOf, selectedPackets]
  | cons p ps ih =>
    intro res c dec wr
    simp only [packet_loop]
    split_ifs with h1 h2 h3
    · simp [submitted, submittedOf, packetsRead, packetReadOf, selectedPackets,
        List.filterMap_append, decode_packet_submitted, decode_packet_packetsRead, h1]
    · simp [submitted, submittedOf, packetsRead, packetReadOf, selectedPackets,
        List.filterMap_append, decode_packet_submitted, decode_packet_packetsRead, h1]
    · have := ih (decode_packet ext p dec wr).res (c - 1) (decode_packet ext p dec wr).dec
        (decode_packet ext p dec wr).wr
      simp only [submitted, packetsRead, selectedPackets] at this
      simp [submitted, submittedOf, packetsRead, packetReadOf, selectedPackets,
        List.filterMap_append, decode_packet_submitted, decode_packet_packetsRead, h1, this]
    · have := ih res c dec wr
      simp only [submitted, packetsRead, selectedPackets] at this
      simp [submitted, submittedOf, packetsRead, packetReadOf, selectedPackets, h1, this]

/-! ## The shape of a run of `main` -/

theorem main_of_reachesLoop {σ τ : Type} (ext : Externals σ τ) (inp : Input) (dec : σ)
    (wr : τ) (h : reachesLoop inp) :
    main ext inp dec wr =
      ⟨(packet_loop ext (select_stream inp).video_stream_index inp.packets SUCCESS 8 dec wr).res,
        [Event.acquire Resource.format_context, Event.acquire Resource.input,
         Event.acquire Resource.codec_context, Event.acquire Resource.packet,
         Event.acquire Resource.frame] ++
        (packet_loop ext (select_stream inp).video_stream_index inp.packets SUCCESS 8 dec
          wr).trace ++
        [Event.release Resource.frame, Event.release Resource.packet,
         Event.release Resource.codec_context, Event.release Resource.input,
         Event.release Resource.format_context]⟩ := by
  obtain ⟨h1, h2, h3, h4, h5, h6, h7, h8, h9, h10⟩ := h
  simp only [main]
  simp [h1, h2, h3, h4, h5, h6, h7, h8, h9, h10, free_frame, free_packet, free_codec_context,
    close_input, free_context]

/-- Outside the packet loop a run has one of five shapes, named by what was
acquired. -/
theorem main_not_reachesLoop {σ τ : Type} (ext : Externals σ τ) (inp : Input) (dec : σ)
    (wr : τ) (h : ¬ reachesLoop inp) :
    (main ext inp dec wr).trace = [] ∨
    (main ext inp dec wr).trace =
      [Event.acquire Resource.format_context, Event.release Resource.format_context] ∨
    (main ext inp dec wr).trace =
      [Event.acquire Resource.format_context, Event.acquire Resource.input,
       Event.release Resource.input, Event.release Resource.format_context] ∨
    (main ext inp dec wr).trace =
      [Event.acquire Resource.format_context, Event.acquire Resource.input,
       Event.acquire Resource.codec_context, Event.release Resource.codec_context,
       Event.release Resource.input, Event.release Resource.format_context] ∨
    (main ext inp dec wr).trace =
      [Event.acquire Resource.format_context, Event.acquire Resource.input,
       Event.acquire Resource.codec_context, Event.acquire Resource.packet,
       Event.release Resource.packet, Event.release Resource.codec_context,
       Event.release Resource.input, Event.release Resource.format_context] := by
  by_cases h1 : inp.argv > 1
  swap
  · left; simp [main, h1]
  by_cases h2 : inp.avformat_alloc_context = true
  swap
  · left; simp [main, h1, h2]
  by_cases h3 : inp.avformat_open_input = SUCCESS
  swap
  · right; left; simp [main, h1, h2, h3, free_context]
  by_cases h4 : inp.avformat_find_stream_info = SUCCESS
  swap
  · right; right; left; simp [main, h1, h2, h3, h4, close_input, free_context]
  by_cases h5 : (select_stream inp).video_stream_index = -1
  · right; right; left; simp [main, h1, h2, h3, h4, h5, close_input, free_context]
  by_cases h6 : inp.avcodec_alloc_context3 = true
  swap
  · right; right; left; simp [main, h1, h2, h3, h4, h5, h6, close_input, free_context]
  by_cases h7 : inp.avcodec_parameters_to_context = SUCCESS
  swap
  · right; right; right; left
    simp [main, h1, h2, h3, h4, h5, h6, h7, free_codec_context, close_input, free_context]
  by_cases h8 : inp.avcodec_open2 = SUCCESS
  swap
  · right; right; right; left
    simp [main, h1, h2, h3, h4, h5, h6, h7, h8, free_codec_context, close_input, free_context]
  by_cases h9 : inp.av_packet_alloc = true
  swap
  · right; right; right; left
    simp [main, h1, h2, h3, h4, h5, h6, h7, h8, h9, free_codec_context, close_input,
      free_context]
  by_cases h10 : inp.av_frame_alloc = true
  swap
  · right; right; right; right
    simp [main, h1, h2, h3, h4, h5, h6, h7, h8, h9, h10, free_packet, free_codec_context,
      close_input, free_context]
  exact absurd ⟨h1, h2, h3, h4, h5, h6, h7, h8, h9, h10⟩ h


theorem main_ret_of_reachesLoop {σ τ : Type} (ext : Externals σ τ) (inp : Input) (dec : σ)
    (wr : τ) (h : reachesLoop inp) :
    (main ext inp dec wr).ret =
      (packet_loop ext (select_stream inp).video_stream_index inp.packets SUCCESS 8 dec
        wr).res := by
  rw [main_of_reachesLoop ext inp dec wr h]

/-- An observation that ignores acquisitions and releases sees of a run of
`main` what it sees of the packet loop, and nothing when the loop is not
reached. -/
theorem main_filterMap {σ τ α : Type} (ext : Externals σ τ) (inp : Input) (dec : σ) (wr : τ)
    (f : Event → Option α) (hacq : ∀ r, f (Event.acquire r) = none)
    (hrel : ∀ r, f (Event.release r) = none) :
    List.filterMap f (main ext inp dec wr).trace =
      if reachesLoop inp then
        List.filterMap f (packet_loop ext (select_stream inp).video_stream_index inp.packets
          SUCCESS 8 dec wr).trace
      else [] := by
  by_cases h : reachesLoop inp
  · rw [main_of_reachesLoop ext inp dec wr h, if_pos h]
    simp [List.filterMap_append, hacq, hrel]
  · rw [if_neg h]
    rcases main_not_reachesLoop ext inp dec wr h with h' | h' | h' | h' | h' <;>
      rw [h'] <;> simp [hacq, hrel]

theorem main_submitted {σ τ : Type} (ext : Externals σ τ) (inp : Input) (dec : σ) (wr : τ) :
    submitted (main ext inp dec wr).trace =
      if reachesLoop inp then
        submitted (packet_loop ext (select_stream inp).video_stream_index inp.packets
          SUCCESS 8 dec wr).trace
      else [] :=
  main_filterMap ext inp dec wr submittedOf (fun _ => rfl) (fun _ => rfl)

theorem main_writeCalls {σ τ : Type} (ext : Externals σ τ) (inp : Input) (dec : σ) (wr : τ) :
    writeCalls (main ext inp dec wr).trace =
      if reachesLoop inp then
        writeCalls (packet_loop ext (select_stream inp).video_stream_index inp.packets
          SUCCESS 8 dec wr).trace
      else [] :=
  main_filterMap ext inp dec wr writeCallOf (fun _ => rfl) (fun _ => rfl)

theorem main_filesWritten {σ τ : Type} (ext : Externals σ τ) (inp : Input) (dec : σ)
    (wr : τ) :
    filesWritten (main ext inp dec wr).trace =
      if reachesLoop inp then
        filesWritten (packet_loop ext (select_stream inp).video_stream_index inp.packets
          SUCCESS 8 dec wr).trace
      else [] :=
  main_filterMap ext inp dec wr fileWrittenOf (fun _ => rfl) (fun _ => rfl)

theorem main_packetsRead {σ τ : Type} (ext : Externals σ τ) (inp : Input) (dec : σ)
    (wr : τ) :
    packetsRead (main ext inp dec wr).trace =
      if reachesLoop inp then
        packetsRead (packet_loop ext (select_stream inp).video_stream_index inp.packets
          SUCCESS 8 dec wr).trace
      else [] :=
  main_filterMap ext inp dec wr packetReadOf (fun _ => rfl) (fun _ => rfl)

theorem main_fatalStatuses {σ τ : Type} (ext : Externals σ τ) (inp : Input) (dec : σ)
    (wr : τ) :
    fatalStatuses (main ext inp dec wr).trace =
      if reachesLoop inp then
        fatalStatuses (packet_loop ext (select_stream inp).video_stream_index inp.packets
          SUCCESS 8 dec wr).trace
      else [] :=
  main_filterMap ext inp dec wr fatalStatusOf (fun _ => rfl) (fun _ => rfl)

/-! ## The budget -/

/-- C10: one run of `main` hands at most 8 packets to the decoder, calls the
image writer at most 8 times and so writes at most 8 image files, and reads at
most 8 packets of the selected stream, for every input, decoder and writer. -/
theorem main_budget {σ τ : Type} (ext : Externals σ τ) (inp : Input) (dec : σ) (wr : τ) :
    (submitted (main ext inp dec wr).trace).length ≤ 8 ∧
    (writeCalls (main ext inp dec wr).trace).length ≤ 8 ∧
    (filesWritten (main ext inp dec wr).trace).length ≤ 8 ∧
    (selectedPackets (select_stream inp).video_stream_index
      (packetsRead (main ext inp dec wr).trace)).length ≤ 8 := by
  have hs := packet_loop_submitted_length ext (select_stream inp).video_stream_index
    inp.packets SUCCESS 8 dec wr
  have hw := packet_loop_writeCalls_length ext (select_stream inp).video_stream_index
    inp.packets SUCCESS 8 dec wr
  have hr := packet_loop_selected_read ext (select_stream inp).video_stream_index
    inp.packets SUCCESS 8 dec wr
  have hf := filesWritten_length_le (main ext inp dec wr).trace
  have h8 : ((8 : Int) - 1).toNat + 1 = 8 := by decide
  rw [h8] at hs hw
  have hw' : (writeCalls (main ext inp dec wr).trace).length ≤ 8 := by
    rw [main_writeCalls]
    split_ifs
    · exact hw
    · simp
  refine ⟨?_, hw', le_trans hf hw', ?_⟩
  · rw [main_submitted]
    split_ifs
    · exact hs
    · simp
  · rw [main_packetsRead]
    split_ifs
    · rw [hr]; exact hs
    · simp [selectedPackets]


/-! ## Resources -/

theorem heldAfter_resourceEvents (t : List Event) :
    ∀ held : List Resource, heldAfter t held = heldAfter (resourceEvents t) held := by
  induction t with
  | nil => intro held; rfl
  | cons e t ih =>
    intro held
    simp only [resourceEvents] at ih ⊢
    cases e with
    | acquire r => simp [heldAfter, isResourceEvent, ih]
    | release r =>
      cases held with
      | nil => simp [heldAfter, isResourceEvent]
      | cons top below => simp [heldAfter, isResourceEvent, ih]
    | _ => simp [heldAfter, isResourceEvent, ih]

theorem acquired_of_resourceEvents_nil (t : List Event) (h : resourceEvents t = []) :
    acquired t = [] ∧ released t = [] := by
  simp only [resourceEvents, List.filter_eq_nil_iff] at h
  simp only [acquired, released, List.filterMap_eq_nil_iff]
  constructor <;> intro e he <;> have := h e he <;> cases e <;>
    simp_all [isResourceEvent, acquiredOf, releasedOf]

/-- C8: once the container handle is allocated, a run of `main` acquires
resources in the order format context, input, codec context, packet, frame,
stopping at the first that fails; every release finds its resource on top of
the stack of held resources, so resources are released in reverse order of
acquisition, each once and only if held, and none is held at return. -/
theorem main_releases_acquired {σ τ : Type} (ext : Externals σ τ) (inp : Input) (dec : σ)
    (wr : τ) (h1 : inp.argv > 1) (h2 : inp.avformat_alloc_context = true) :
    heldAfter (main ext inp dec wr).trace [] = some [] ∧
    released (main ext inp dec wr).trace = (acquired (main ext inp dec wr).trace).reverse ∧
    (acquired (main ext inp dec wr).trace).Nodup ∧
    (∃ rest, acquired (main ext inp dec wr).trace = Resource.format_context :: rest) ∧
    acquired (main ext inp dec wr).trace <+:
      [Resource.format_context, Resource.input, Resource.codec_context, Resource.packet,
       Resource.frame] := by
  by_cases h : reachesLoop inp
  · have hr := packet_loop_resourceEvents ext (select_stream inp).video_stream_index
      inp.packets SUCCESS 8 dec wr
    obtain ⟨ha, hl⟩ := acquired_of_resourceEvents_nil _ hr
    simp only [resourceEvents] at hr
    simp only [acquired] at ha
    simp only [released] at hl
    rw [heldAfter_resourceEvents, main_of_reachesLoop ext inp dec wr h]
    simp only [resourceEvents, acquired, released, List.filter_append, List.filterMap_append,
      hr, ha, hl]
    refine ⟨by decide, by decide, by decide, ⟨_, rfl⟩, by decide⟩
  · rcases main_not_reachesLoop ext inp dec wr h with h' | h' | h' | h' | h'
    · exfalso
      simp [main, h1, h2] at h'
      revert h'
      split_ifs <;> simp [free_frame, free_packet, free_codec_context, close_input,
        free_context]
    all_goals
      rw [h']
      exact ⟨by decide, by decide, by decide, ⟨_, rfl⟩, by decide⟩


/-! ## The stream scan -/

theorem scan_step_of_selected (fd : Nat → Option AVCodec) (sel : Selection) (i : Nat)
    (st : AVStream) (h : sel.video_stream_index ≠ -1) : scan_step fd sel i st = sel := by
  unfold scan_step
  split
  · rfl
  · split_ifs <;> rfl

theorem scan_streams_of_selected (fd : Nat → Option AVCodec) (l : List AVStream) :
    ∀ (i : Nat) (sel : Selection), sel.video_stream_index ≠ -1 →
      scan_streams fd l i sel = sel := by
  induction l with
  | nil => intro i sel _; rfl
  | cons st rest ih =>
    intro i sel h
    simp only [scan_streams]
    rw [scan_step_of_selected fd sel i st h]
    exact ih (i + 1) sel h

theorem scan_step_of_not_qualifies (fd : Nat → Option AVCodec) (sel : Selection) (i : Nat)
    (st : AVStream) (h : ¬ qualifies fd st) : scan_step fd sel i st = sel := by
  unfold scan_step
  unfold qualifies at h
  split
  · rfl
  · rename_i c hc
    split_ifs with h1 h2
    · exact absurd ⟨by simp [hc], h1⟩ h
    · rfl
    · rfl

theorem scan_step_of_qualifies (fd : Nat → Option AVCodec) (i : Nat) (st : AVStream)
    (h : qualifies fd st) :
    scan_step fd Selection.none i st = ⟨(i : Int), fd st.codecpar.codec_id, some st.codecpar⟩ := by
  unfold scan_step
  obtain ⟨h1, h2⟩ := h
  split
  · rename_i hc
    simp [hc] at h1
  · rename_i c hc
    simp [h2, Selection.none, hc]

theorem scan_streams_spec (fd : Nat → Option AVCodec) (l : List AVStream) :
    ∀ i : Nat,
      (scan_streams fd l i Selection.none = Selection.none ∧ ∀ st ∈ l, ¬ qualifies fd st) ∨
      ∃ (k : Nat) (st : AVStream), l[k]? = some st ∧ qualifies fd st ∧
        (∀ (j : Nat) (st' : AVStream), j < k → l[j]? = some st' → ¬ qualifies fd st') ∧
        scan_streams fd l i Selection.none =
          ⟨((i + k : Nat) : Int), fd st.codecpar.codec_id, some st.codecpar⟩ := by
  induction l with
  | nil => intro i; left; simp [scan_streams]
  | cons st rest ih =>
    intro i
    by_cases hq : qualifies fd st
    · right
      refine ⟨0, st, by simp, hq, by intro j st' hj; omega, ?_⟩
      simp only [scan_streams]
      rw [scan_step_of_qualifies fd i st hq]
      rw [scan_streams_of_selected]
      · simp
      · show (i : Int) ≠ -1
        omega
    · simp only [scan_streams]
      rw [scan_step_of_not_qualifies fd _ i st hq]
      rcases ih (i + 1) with ⟨h1, h2⟩ | ⟨k, st1, hk, hq1, hmin, hres⟩
      · left
        refine ⟨h1, ?_⟩
        intro s hs
        rcases List.mem_cons.1 hs with rfl | hs
        · exact hq
        · exact h2 s hs
      · right
        refine ⟨k + 1, st1, by simpa using hk, hq1, ?_, ?_⟩
        · intro j st' hj hst'
          cases j with
          | zero =>
            simp at hst'
            rw [← hst']; exact hq
          | succ j =>
            exact hmin j st' (by omega) (by simpa using hst')
        · rw [hres]
          congr 1
          push_cast
          ring

/-- C2: the stream scan of `main` either finds no stream that has a decoder
and is of video kind, and then leaves `video_stream_index = -1` and both
pointers null, or it leaves `video_stream_index` at the smallest index `k`
whose stream has a decoder and is of video kind, with `pCodec` the decoder of
that stream and `pCodecParameters` its parameters. -/
theorem select_stream_first_qualifying (inp : Input) :
    (select_stream inp = ⟨-1, none, none⟩ ∧
      ∀ st ∈ inp.streams, ¬ qualifies inp.avcodec_find_decoder st) ∨
    ∃ (k : Nat) (st : AVStream), inp.streams[k]? = some st ∧
      qualifies inp.avcodec_find_decoder st ∧
      (∀ (j : Nat) (st' : AVStream), j < k → inp.streams[j]? = some st' →
        ¬ qualifies inp.avcodec_find_decoder st') ∧
      select_stream inp =
        ⟨(k : Int), inp.avcodec_find_decoder st.codecpar.codec_id, some st.codecpar⟩ := by
  have h := scan_streams_spec inp.avcodec_find_decoder inp.streams 0
  simpa [select_stream, Selection.none] using h

/-! ## No video stream -/

theorem select_stream_of_none_qualifies (inp : Input)
    (h : ∀ st ∈ inp.streams, ¬ qualifies inp.avcodec_find_decoder st) :
    (select_stream inp).video_stream_index = -1 := by
  rcases scan_streams_spec inp.avcodec_find_decoder inp.streams 0 with
    ⟨h1, _⟩ | ⟨k, st, hk, hq, _, _⟩
  · unfold select_stream
    rw [h1]
    rfl
  · exact absurd hq (h st (List.getElem?_mem hk))

/-- C3: when the input opens and probes but no stream has a decoder and is of
video kind, `main` returns `ERROR`, which is not zero, and the run consists of
acquiring and releasing the container: no packet is read, nothing is sent to
the decoder, no image is written. -/
theorem main_no_video_stream {σ τ : Type} (ext : Externals σ τ) (inp : Input) (dec : σ)
    (wr : τ) (h1 : inp.argv > 1) (h2 : inp.avformat_alloc_context = true)
    (h3 : inp.avformat_open_input = SUCCESS) (h4 : inp.avformat_find_stream_info = SUCCESS)
    (h5 : ∀ st ∈ inp.streams, ¬ qualifies inp.avcodec_find_decoder st) :
    (main ext inp dec wr).ret = ERROR ∧ (main ext inp dec wr).ret ≠ 0 ∧
    (main ext inp dec wr).trace =
      [Event.acquire Resource.format_context, Event.acquire Resource.input,
       Event.release Resource.input, Event.release Resource.format_context] ∧
    packetsRead (main ext inp dec wr).trace = [] ∧
    submitted (main ext inp dec wr).trace = [] ∧
    writeCalls (main ext inp dec wr).trace = [] ∧
    filesWritten (main ext inp dec wr).trace = [] := by
  have h6 := select_stream_of_none_qualifies inp h5
  have hm : main ext inp dec wr =
      ⟨ERROR, [Event.acquire Resource.format_context, Event.acquire Resource.input,
        Event.release Resource.input, Event.release Resource.format_context]⟩ := by
    simp [main, h1, h2, h3, h4, h6, close_input, free_context]
  rw [hm]
  exact ⟨rfl, by decide, rfl, rfl, rfl, rfl, rfl⟩


/-! ## Packets of other streams -/

theorem packet_loop_submitted_prefix {σ τ : Type} (ext : Externals σ τ) (v : Int) :
    ∀ (ps : List AVPacket) (res c : Int) (dec : σ) (wr : τ),
      submitted (packet_loop ext v ps res c dec wr).trace <+: selectedPackets v ps := by
  intro ps
  induction ps with
  | nil => intro res c dec wr; simp [packet_loop, submitted, submittedOf]
  | cons p ps ih =>
    intro res c dec wr
    simp only [packet_loop]
    split_ifs with h1 h2 h3
    · simp [submitted, submittedOf, List.filterMap_append, decode_packet_submitted,
        selectedPackets, h1, List.prefix_cons_inj]
    · simp [submitted, submittedOf, List.filterMap_append, decode_packet_submitted,
        selectedPackets, h1, List.prefix_cons_inj]
    · have := ih (decode_packet ext p dec wr).res (c - 1) (decode_packet ext p dec wr).dec
        (decode_packet ext p dec wr).wr
      simp only [submitted, selectedPackets] at this
      simp [submitted, submittedOf, List.filterMap_append, decode_packet_submitted,
        selectedPackets, h1, List.prefix_cons_inj, this]
    · have := ih res c dec wr
      simp only [submitted, selectedPackets] at this
      simp [submitted, submittedOf, selectedPackets, h1, this]

theorem skippedReleased_append (v : Int) (a b : List Event) (ha : skippedReleased v a)
    (hb : skippedReleased v b) : skippedReleased v (a ++ b) := by
  induction a with
  | nil => simpa using hb
  | cons e a ih =>
    cases e with
    | read_frame o =>
      cases o with
      | none =>
        simp only [skippedReleased, List.cons_append] at ha ⊢
        exact ih ha
      | some p =>
        simp only [skippedReleased, List.cons_append] at ha ⊢
        refine ⟨?_, ih ha.2⟩
        intro hp
        obtain ⟨tail, ht⟩ := ha.1 hp
        exact ⟨tail ++ b, by rw [ht]; rfl⟩
    | _ =>
      simp only [skippedReleased, List.cons_append] at ha ⊢
      exact ih ha

theorem skippedReleased_of_no_read (v : Int) (t : List Event)
    (h : List.filterMap packetReadOf t = []) : skippedReleased v t := by
  induction t with
  | nil => simp [skippedReleased]
  | cons e t ih =>
    cases e with
    | read_frame o =>
      cases o with
      | none =>
        simp only [skippedReleased]
        exact ih (by simpa [packetReadOf] using h)
      | some p => simp [packetReadOf] at h
    | _ =>
      simp only [skippedReleased]
      exact ih (by simpa [packetReadOf] using h)

theorem packet_loop_skippedReleased {σ τ : Type} (ext : Externals σ τ) (v : Int) :
    ∀ (ps : List AVPacket) (res c : Int) (dec : σ) (wr : τ),
      skippedReleased v (packet_loop ext v ps res c dec wr).trace := by
  intro ps
  induction ps with
  | nil => intro res c dec wr; simp [packet_loop, skippedReleased]
  | cons p ps ih =>
    intro res c dec wr
    have hd := skippedReleased_of_no_read v _ (decode_packet_packetsRead ext p dec wr)
    simp only [packet_loop]
    split_ifs with h1 h2 h3
    · simp only [skippedReleased]
      exact ⟨fun hp => absurd h1 hp,
        skippedReleased_append v _ _ hd (by simp [skippedReleased])⟩
    · simp only [skippedReleased]
      exact ⟨fun hp => absurd h1 hp, hd⟩
    · simp only [skippedReleased]
      refine ⟨fun hp => absurd h1 hp, skippedReleased_append v _ _ hd ?_⟩
      simp only [skippedReleased]
      exact ih _ _ _ _
    · simp only [skippedReleased]
      exact ⟨fun _ => ⟨_, rfl⟩, ih _ _ _ _⟩

theorem packet_loop_selectedPackets {σ τ : Type} (ext : Externals σ τ) (v : Int) :
    ∀ (ps : List AVPacket) (res c : Int) (dec : σ) (wr : τ),
      (packet_loop ext v (selectedPackets v ps) res c dec wr).res =
        (packet_loop ext v ps res c dec wr).res ∧
      (packet_loop ext v (selectedPackets v ps) res c dec wr).count_of_packets =
        (packet_loop ext v ps res c dec wr).count_of_packets ∧
      (packet_loop ext v (selectedPackets v ps) res c dec wr).dec =
        (packet_loop ext v ps res c dec wr).dec ∧
      (packet_loop ext v (selectedPackets v ps) res c dec wr).wr =
        (packet_loop ext v ps res c dec wr).wr ∧
      decoderEvents (packet_loop ext v (selectedPackets v ps) res c dec wr).trace =
        decoderEvents (packet_loop ext v ps res c dec wr).trace := by
  intro ps
  induction ps with
  | nil => intro res c dec wr; simp [selectedPackets]
  | cons p ps ih =>
    intro res c dec wr
    by_cases h1 : p.stream_index = v
    · have hs : selectedPackets v (p :: ps) = p :: selectedPackets v ps := by
        simp [selectedPackets, h1]
      rw [hs]
      simp only [packet_loop, if_pos h1]
      split_ifs with h2 h3
      · simp
      · simp
      · obtain ⟨i1, i2, i3, i4, i5⟩ := ih (decode_packet ext p dec wr).res (c - 1)
          (decode_packet ext p dec wr).dec (decode_packet ext p dec wr).wr
        simp only [decoderEvents] at i5
        simp [i1, i2, i3, i4, decoderEvents, List.filter_append, isDecoderEvent, i5]
    · have hs : selectedPackets v (p :: ps) = selectedPackets v ps := by
        simp [selectedPackets, h1]
      rw [hs]
      obtain ⟨i1, i2, i3, i4, i5⟩ := ih res c dec wr
      simp only [decoderEvents] at i5
      simp [packet_loop, h1, i1, i2, i3, i4, decoderEvents, isDecoderEvent, i5]

theorem select_stream_withPackets (inp : Input) (ps : List AVPacket) :
    select_stream (inp.withPackets ps) = select_stream inp := rfl

/-- Before the packet loop a run depends neither on the packets of the
container nor on the decoder and the writer. -/
theorem main_of_not_reachesLoop_eq {σ τ σ₂ τ₂ : Type} (ext : Externals σ τ)
    (ext₂ : Externals σ₂ τ₂) (inp : Input) (ps : List AVPacket) (dec : σ) (wr : τ)
    (dec₂ : σ₂) (wr₂ : τ₂) (h : ¬ reachesLoop inp) :
    main ext₂ (inp.withPackets ps) dec₂ wr₂ = main ext inp dec wr := by
  have hs := select_stream_withPackets inp ps
  by_cases h1 : inp.argv > 1
  swap
  · simp [main, Input.withPackets, h1]
  by_cases h2 : inp.avformat_alloc_context = true
  swap
  · simp [main, Input.withPackets, h1, h2]
  by_cases h3 : inp.avformat_open_input = SUCCESS
  swap
  · simp [main, Input.withPackets, h1, h2, h3]
  by_cases h4 : inp.avformat_find_stream_info = SUCCESS
  swap
  · simp [main, Input.withPackets, h1, h2, h3, h4]
  by_cases h5 : (select_stream inp).video_stream_index = -1
  · simp only [main, hs]
    simp [Input.withPackets, h1, h2, h3, h4, h5]
  by_cases h6 : inp.avcodec_alloc_context3 = true
  swap
  · simp only [main, hs]
    simp [Input.withPackets, h1, h2, h3, h4, h5, h6]
  by_cases h7 : inp.avcodec_parameters_to_context = SUCCESS
  swap
  · simp only [main, hs]
    simp [Input.withPackets, h1, h2, h3, h4, h5, h6, h7]
  by_cases h8 : inp.avcodec_open2 = SUCCESS
  swap
  · simp only [main, hs]
    simp [Input.withPackets, h1, h2, h3, h4, h5, h6, h7, h8]
  by_cases h9 : inp.av_packet_alloc = true
  swap
  · simp only [main, hs]
    simp [Input.withPackets, h1, h2, h3, h4, h5, h6, h7, h8, h9]
  by_cases h10 : inp.av_frame_alloc = true
  swap
  · simp only [main, hs]
    simp [Input.withPackets, h1, h2, h3, h4, h5, h6, h7, h8, h9, h10]
  exact absurd ⟨h1, h2, h3, h4, h5, h6, h7, h8, h9, h10⟩ h

theorem reachesLoop_withPackets (inp : Input) (ps : List AVPacket) :
    reachesLoop (inp.withPackets ps) ↔ reachesLoop inp := Iff.rfl


/-- C6: the packets `main` hands to the decoder are a prefix of the packets
of the selected stream, in container order, so no packet of another stream is
ever submitted; every packet read from another stream is released right after
the read; and such packets consume no budget: on the container with only the
packets of the selected stream `main` returns the same status after the same
calls of the decoder and of the writer with the same results. -/
theorem main_skips_other_streams {σ τ : Type} (ext : Externals σ τ) (inp : Input) (dec : σ)
    (wr : τ) :
    submitted (main ext inp dec wr).trace <+:
      selectedPackets (select_stream inp).video_stream_index inp.packets ∧
    skippedReleased (select_stream inp).video_stream_index (main ext inp dec wr).trace ∧
    (main ext (inp.withPackets
      (selectedPackets (select_stream inp).video_stream_index inp.packets)) dec wr).ret =
      (main ext inp dec wr).ret ∧
    decoderEvents (main ext (inp.withPackets
      (selectedPackets (select_stream inp).video_stream_index inp.packets)) dec wr).trace =
      decoderEvents (main ext inp dec wr).trace := by
  by_cases h : reachesLoop inp
  · have h' := (reachesLoop_withPackets inp
      (selectedPackets (select_stream inp).video_stream_index inp.packets)).2 h
    obtain ⟨i1, -, -, -, i5⟩ := packet_loop_selectedPackets ext
      (select_stream inp).video_stream_index inp.packets SUCCESS 8 dec wr
    refine ⟨?_, ?_, ?_, ?_⟩
    · rw [main_submitted, if_pos h]
      exact packet_loop_submitted_prefix ext _ _ _ _ _ _
    · rw [main_of_reachesLoop ext inp dec wr h]
      refine skippedReleased_append _ _ _ (skippedReleased_append _ _ _ ?_ ?_) ?_
      · simp [skippedReleased]
      · exact packet_loop_skippedReleased ext _ _ _ _ _ _
      · simp [skippedReleased]
    · rw [main_ret_of_reachesLoop ext _ dec wr h', main_ret_of_reachesLoop ext _ dec wr h]
      exact i1
    · rw [main_of_reachesLoop ext _ dec wr h', main_of_reachesLoop ext _ dec wr h]
      simp only [decoderEvents] at i5
      simp only [decoderEvents, List.filter_append, select_stream_withPackets]
      rw [show (inp.withPackets
        (selectedPackets (select_stream inp).video_stream_index inp.packets)).packets =
        selectedPackets (select_stream inp).video_stream_index inp.packets from rfl, i5]
  · rw [main_of_not_reachesLoop_eq ext ext inp _ dec wr dec wr h, main_submitted, if_neg h]
    refine ⟨List.nil_prefix, ?_, rfl, rfl⟩
    rcases main_not_reachesLoop ext inp dec wr h with h' | h' | h' | h' | h' <;>
      rw [h'] <;> simp [skippedReleased]

/-! ## The image writer -/

theorem decode_packet_withWriter {σ τ υ : Type} (ext : Externals σ τ)
    (imwrite₂ : υ → String → Bool × υ) (p : AVPacket) (dec : σ) (wr : τ) (wr₂ : υ) :
    (decode_packet (ext.withWriter imwrite₂) p dec wr₂).res = (decode_packet ext p dec wr).res ∧
    (decode_packet (ext.withWriter imwrite₂) p dec wr₂).dec = (decode_packet ext p dec wr).dec ∧
    forgetWriteResults (decode_packet (ext.withWriter imwrite₂) p dec wr₂).trace =
      forgetWriteResults (decode_packet ext p dec wr).trace := by
  simp only [decode_packet, Externals.withWriter]
  split_ifs <;> simp [forgetWriteResults, forgetWriteResult]

theorem decode_packet_success_or_no_write {σ τ : Type} (ext : Externals σ τ) (p : AVPacket)
    (dec : σ) (wr : τ) :
    (decode_packet ext p dec wr).res = SUCCESS ∨
      writeCalls (decode_packet ext p dec wr).trace = [] := by
  by_cases h : (decode_packet ext p dec wr).res = SUCCESS
  · exact Or.inl h
  · exact Or.inr (decode_packet_writeCalls_of_error ext p dec wr h)

theorem packet_loop_withWriter {σ τ υ : Type} (ext : Externals σ τ)
    (imwrite₂ : υ → String → Bool × υ) (v : Int) :
    ∀ (ps : List AVPacket) (res c : Int) (dec : σ) (wr : τ) (wr₂ : υ),
      (packet_loop (ext.withWriter imwrite₂) v ps res c dec wr₂).res =
        (packet_loop ext v ps res c dec wr).res ∧
      forgetWriteResults (packet_loop (ext.withWriter imwrite₂) v ps res c dec wr₂).trace =
        forgetWriteResults (packet_loop ext v ps res c dec wr).trace := by
  intro ps
  induction ps with
  | nil => intro res c dec wr wr₂; simp [packet_loop]
  | cons p ps ih =>
    intro res c dec wr wr₂
    obtain ⟨d1, d2, d3⟩ := decode_packet_withWriter ext imwrite₂ p dec wr wr₂
    simp only [forgetWriteResults] at d3
    simp only [packet_loop, d1, d2]
    split_ifs with h1 h2 h3
    · simp [forgetWriteResults, forgetWriteResult, d3]
    · simp [forgetWriteResults, forgetWriteResult, d3]
    · obtain ⟨i1, i2⟩ := ih (decode_packet ext p dec wr).res (c - 1)
        (decode_packet ext p dec wr).dec (decode_packet ext p dec wr).wr
        (decode_packet (ext.withWriter imwrite₂) p dec wr₂).wr
      simp only [forgetWriteResults] at i2
      simp [forgetWriteResults, forgetWriteResult, d3, i1, i2]
    · obtain ⟨i1, i2⟩ := ih res c dec wr wr₂
      simp only [forgetWriteResults] at i2
      simp [forgetWriteResults, forgetWriteResult, i1, i2]

/-- C7, as the code has it: `decode_packet` does not look at the result of
`cv::imwrite`.  Whenever it calls the writer it returns `SUCCESS`, and with
any other writer in place, one that fails included, `main` returns the same
status after the same reads, sends, receives, write calls and releases. -/
theorem main_ignores_write_result {σ τ υ : Type} (ext : Externals σ τ)
    (imwrite₂ : υ → String → Bool × υ) (inp : Input) (dec : σ) (wr : τ) (wr₂ : υ) :
    (main (ext.withWriter imwrite₂) inp dec wr₂).ret = (main ext inp dec wr).ret ∧
    forgetWriteResults (main (ext.withWriter imwrite₂) inp dec wr₂).trace =
      forgetWriteResults (main ext inp dec wr).trace ∧
    ∀ (p : AVPacket) (s : σ) (t : τ), (decode_packet ext p s t).res = SUCCESS ∨
      writeCalls (decode_packet ext p s t).trace = [] := by
  refine ⟨?_, ?_, fun p s t => decode_packet_success_or_no_write ext p s t⟩
  · by_cases h : reachesLoop inp
    · rw [main_ret_of_reachesLoop _ _ _ _ h, main_ret_of_reachesLoop _ _ _ _ h]
      exact (packet_loop_withWriter ext imwrite₂ _ _ _ _ _ _ _).1
    · have := main_of_not_reachesLoop_eq ext (ext.withWriter imwrite₂) inp inp.packets dec wr
        dec wr₂ h
      rw [show inp.withPackets inp.packets = inp from rfl] at this
      rw [this]
  · by_cases h : reachesLoop inp
    · rw [main_of_reachesLoop _ _ _ _ h, main_of_reachesLoop _ _ _ _ h]
      have := (packet_loop_withWriter ext imwrite₂ (select_stream inp).video_stream_index
        inp.packets SUCCESS 8 dec wr wr₂).2
      simp only [forgetWriteResults] at this
      simp [forgetWriteResults, this]
    · have := main_of_not_reachesLoop_eq ext (ext.withWriter imwrite₂) inp inp.packets dec wr
        dec wr₂ h
      rw [show inp.withPackets inp.packets = inp from rfl] at this
      rw [this]

/-- C7, as the claim states it, fails: with a writer that fails on every
image `decode_packet` still returns `SUCCESS` for the first packet, the loop
goes on to the second packet, and `main` returns 0. -/
theorem write_failure_not_reported :
    (decode_packet (directDecoder.withWriter failingWriter) ⟨1, 1⟩ 0 ()).trace =
      [Event.send_packet ⟨1, 1⟩ 0, Event.receive_frame 0, Event.imwrite "1.jpg" false] ∧
    (decode_packet (directDecoder.withWriter failingWriter) ⟨1, 1⟩ 0 ()).res = 0 ∧
    submitted (main (directDecoder.withWriter failingWriter) (sampleInput (videoPackets 2)) 0
      ()).trace = [⟨1, 1⟩, ⟨1, 2⟩] ∧
    filesWritten (main (directDecoder.withWriter failingWriter) (sampleInput (videoPackets 2))
      0 ()).trace = [] ∧
    (main (directDecoder.withWriter failingWriter) (sampleInput (videoPackets 2)) 0 ()).ret =
      0 := by
  decide


/-! ## A rejected packet -/

/-- While the decoder reports nothing fatal and the budget is not used up,
the loop on `pre ++ rest` goes through `pre` as the loop on `pre` alone does
and then continues with `rest`. -/
theorem packet_loop_append {σ τ α : Type} (ext : Externals σ τ) (v : Int)
    (rest : List AVPacket) (f : Event → Option α) (hf : f (Event.read_frame none) = none) :
    ∀ (pre : List AVPacket) (res c : Int) (dec : σ) (wr : τ),
      fatalStatuses (packet_loop ext v pre res c dec wr).trace = [] →
      ((selectedPackets v pre).length : Int) < c →
      (packet_loop ext v (pre ++ rest) res c dec wr).res =
        (packet_loop ext v rest (packet_loop ext v pre res c dec wr).res
          (packet_loop ext v pre res c dec wr).count_of_packets
          (packet_loop ext v pre res c dec wr).dec (packet_loop ext v pre res c dec wr).wr).res ∧
      List.filterMap f (packet_loop ext v (pre ++ rest) res c dec wr).trace =
        List.filterMap f (packet_loop ext v pre res c dec wr).trace ++
        List.filterMap f (packet_loop ext v rest (packet_loop ext v pre res c dec wr).res
          (packet_loop ext v pre res c dec wr).count_of_packets
          (packet_loop ext v pre res c dec wr).dec
          (packet_loop ext v pre res c dec wr).wr).trace ∧
      0 < (packet_loop ext v pre res c dec wr).count_of_packets ∧
      packetsRead (packet_loop ext v pre res c dec wr).trace = pre := by
  intro pre
  induction pre with
  | nil =>
    intro res c dec wr _ hc
    simp only [selectedPackets, List.filter_nil, List.length_nil] at hc
    simp [packet_loop, hf, packetsRead, packetReadOf]
    exact_mod_cast hc
  | cons p pre ih =>
    intro res c dec wr hfatal hc
    by_cases h1 : p.stream_index = v
    · have hs : selectedPackets v (p :: pre) = p :: selectedPackets v pre := by
        simp [selectedPackets, h1]
      rw [hs] at hc
      simp only [List.length_cons] at hc
      push_cast at hc
      have hdf := decode_packet_fatalStatuses ext p dec wr
      by_cases h2 : (decode_packet ext p dec wr).res = SUCCESS
      · have h3 : ¬ (c - 1 ≤ 0) := by omega
        simp only [packet_loop, if_pos h1, h2, ne_eq, not_true_eq_false, if_false, h3,
          List.cons_append] at hfatal ⊢
        simp only [fatalStatuses, List.filterMap_cons, List.filterMap_append, fatalStatusOf,
          List.append_eq_nil] at hfatal
        obtain ⟨i1, i2, i3, i4⟩ := ih SUCCESS (c - 1) (decode_packet ext p dec wr).dec
          (decode_packet ext p dec wr).wr hfatal.2 (by omega)
        refine ⟨i1, ?_, i3, ?_⟩
        · simp only [List.filterMap_cons, List.filterMap_append, List.append_eq]
          rw [i2]
          cases f (Event.read_frame (some p)) <;> cases f (Event.packet_unref p) <;> simp
        · simp only [packetsRead] at i4
          simp [packetsRead, packetReadOf, List.filterMap_append, decode_packet_packetsRead, i4]
      · exfalso
        simp only [packet_loop, if_pos h1, ne_eq, h2, not_false_eq_true, if_true] at hfatal
        simp only [fatalStatuses, List.filterMap_cons, List.filterMap_append, fatalStatusOf,
          hdf, ne_eq, h2, not_false_eq_true, if_true] at hfatal
        simp at hfatal
    · have hs : selectedPackets v (p :: pre) = selectedPackets v pre := by
        simp [selectedPackets, h1]
      rw [hs] at hc
      simp only [packet_loop, if_neg h1, List.cons_append] at hfatal ⊢
      simp only [fatalStatuses, List.filterMap_cons, fatalStatusOf] at hfatal
      obtain ⟨i1, i2, i3, i4⟩ := ih res c dec wr hfatal hc
      refine ⟨i1, ?_, i3, ?_⟩
      · simp only [List.filterMap_cons, List.append_eq]
        rw [i2]
        cases f (Event.read_frame (some p)) <;> cases f (Event.packet_unref p) <;> simp
      · simp only [packetsRead] at i4
        simp [packetsRead, packetReadOf, i4]


theorem packet_loop_rejected {σ τ : Type} (ext : Externals σ τ) (v : Int) (p : AVPacket)
    (post : List AVPacket) (res c : Int) (dec : σ) (wr : τ) (hsel : p.stream_index = v)
    (hrej : (decode_packet ext p dec wr).res ≠ SUCCESS) :
    (packet_loop ext v (p :: post) res c dec wr).res = (decode_packet ext p dec wr).res ∧
    packetsRead (packet_loop ext v (p :: post) res c dec wr).trace = [p] ∧
    submitted (packet_loop ext v (p :: post) res c dec wr).trace = [p] ∧
    writeCalls (packet_loop ext v (p :: post) res c dec wr).trace = [] ∧
    filesWritten (packet_loop ext v (p :: post) res c dec wr).trace = [] ∧
    fatalStatuses (packet_loop ext v (p :: post) res c dec wr).trace =
      [(decode_packet ext p dec wr).res] := by
  have hw := decode_packet_writeCalls_of_error ext p dec wr hrej
  have hf : List.filterMap fileWrittenOf (decode_packet ext p dec wr).trace = [] := by
    have := filesWritten_length_le (decode_packet ext p dec wr).trace
    simp only [filesWritten, writeCalls, hw, List.length_nil, Nat.le_zero,
      List.length_eq_zero] at this
    exact this
  have hd := decode_packet_fatalStatuses ext p dec wr
  rw [if_pos hrej] at hd
  simp only [packet_loop, if_pos hsel, if_pos hrej]
  simp [packetsRead, packetReadOf, submitted, submittedOf, writeCalls, writeCallOf,
    filesWritten, fileWrittenOf, fatalStatuses, fatalStatusOf, List.filterMap_append, hw, hf,
    hd, decode_packet_packetsRead, decode_packet_submitted]

/-- When the decoder accepts the packets of the selected stream in `pre`,
fewer than 8 of them, and then rejects the next packet `p` of that stream,
`main` returns the status `decode_packet` got from the decoder, the packets
read are `pre` and `p`, and the writes are those of the run on `pre` alone. -/
theorem main_at_rejected_packet {σ τ : Type} (ext : Externals σ τ) (inp : Input)
    (dec : σ) (wr : τ) (pre post : List AVPacket) (p : AVPacket)
    (hloop : reachesLoop inp) (hpk : inp.packets = pre ++ p :: post)
    (hsel : p.stream_index = (select_stream inp).video_stream_index)
    (hk : (selectedPackets (select_stream inp).video_stream_index pre).length < 8)
    (hpre : fatalStatuses
      (packet_loop ext (select_stream inp).video_stream_index pre SUCCESS 8 dec wr).trace = [])
    (hrej : (decode_packet ext p
      (packet_loop ext (select_stream inp).video_stream_index pre SUCCESS 8 dec wr).dec
      (packet_loop ext (select_stream inp).video_stream_index pre SUCCESS 8 dec wr).wr).res ≠
        SUCCESS) :
    (main ext inp dec wr).ret = (decode_packet ext p
      (packet_loop ext (select_stream inp).video_stream_index pre SUCCESS 8 dec wr).dec
      (packet_loop ext (select_stream inp).video_stream_index pre SUCCESS 8 dec wr).wr).res ∧
    (main ext inp dec wr).ret ≠ 0 ∧
    fatalStatuses (main ext inp dec wr).trace = [(main ext inp dec wr).ret] ∧
    packetsRead (main ext inp dec wr).trace = pre ++ [p] ∧
    submitted (main ext inp dec wr).trace =
      submitted (main ext (inp.withPackets pre) dec wr).trace ++ [p] ∧
    writeCalls (main ext inp dec wr).trace =
      writeCalls (main ext (inp.withPackets pre) dec wr).trace ∧
    filesWritten (main ext inp dec wr).trace =
      filesWritten (main ext (inp.withPackets pre) dec wr).trace := by
  have hloop' := (reachesLoop_withPackets inp pre).2 hloop
  have hc : ((selectedPackets (select_stream inp).video_stream_index pre).length : Int) < 8 := by
    exact_mod_cast hk
  have hrd := packet_loop_append ext (select_stream inp).video_stream_index (p :: post)
    packetReadOf rfl pre SUCCESS 8 dec wr hpre hc
  have hsb := packet_loop_append ext (select_stream inp).video_stream_index (p :: post)
    submittedOf rfl pre SUCCESS 8 dec wr hpre hc
  have hwc := packet_loop_append ext (select_stream inp).video_stream_index (p :: post)
    writeCallOf rfl pre SUCCESS 8 dec wr hpre hc
  have hfw := packet_loop_append ext (select_stream inp).video_stream_index (p :: post)
    fileWrittenOf rfl pre SUCCESS 8 dec wr hpre hc
  have hft := packet_loop_append ext (select_stream inp).video_stream_index (p :: post)
    fatalStatusOf rfl pre SUCCESS 8 dec wr hpre hc
  obtain ⟨r1, r2, r3, r4, r5, r6⟩ := packet_loop_rejected ext
    (select_stream inp).video_stream_index p post
    (packet_loop ext (select_stream inp).video_stream_index pre SUCCESS 8 dec wr).res
    (packet_loop ext (select_stream inp).video_stream_index pre SUCCESS 8 dec wr).count_of_packets
    (packet_loop ext (select_stream inp).video_stream_index pre SUCCESS 8 dec wr).dec
    (packet_loop ext (select_stream inp).video_stream_index pre SUCCESS 8 dec wr).wr hsel hrej
  simp only [packetsRead, submitted, writeCalls, filesWritten, fatalStatuses]
    at r2 r3 r4 r5 r6 hpre
  have hret : (main ext inp dec wr).ret = (decode_packet ext p
      (packet_loop ext (select_stream inp).video_stream_index pre SUCCESS 8 dec wr).dec
      (packet_loop ext (select_stream inp).video_stream_index pre SUCCESS 8 dec wr).wr).res := by
    rw [main_ret_of_reachesLoop ext inp dec wr hloop, hpk, hrd.1, r1]
  have hpp : (inp.withPackets pre).packets = pre := rfl
  refine ⟨hret, ?_, ?_, ?_, ?_, ?_, ?_⟩
  · rw [hret]; exact hrej
  · rw [hret, main_fatalStatuses, if_pos hloop, fatalStatuses, hpk, hft.2.1, r6, hpre]
    rfl
  · rw [main_packetsRead, if_pos hloop, packetsRead, hpk, hrd.2.1, r2]
    have := hrd.2.2.2
    simp only [packetsRead] at this
    rw [this]
  · rw [main_submitted, if_pos hloop, main_submitted, if_pos hloop', submitted, hpk, hsb.2.1,
      r3, select_stream_withPackets, hpp, submitted]
  · rw [main_writeCalls, if_pos hloop, main_writeCalls, if_pos hloop', writeCalls, hpk,
      hwc.2.1, r4, select_stream_withPackets, hpp, writeCalls, List.append_nil]
  · rw [main_filesWritten, if_pos hloop, main_filesWritten, if_pos hloop', filesWritten, hpk,
      hfw.2.1, r5, select_stream_withPackets, hpp, filesWritten, List.append_nil]

/-- A run of the loop in which the decoder reports a fatal status splits at
the packet that was rejected: the packets before it were accepted, fewer of
them than the budget. -/
theorem packet_loop_fatal_split {σ τ : Type} (ext : Externals σ τ) (v : Int) :
    ∀ (ps : List AVPacket) (res c : Int) (dec : σ) (wr : τ), 1 ≤ c →
      fatalStatuses (packet_loop ext v ps res c dec wr).trace ≠ [] →
      ∃ (pre : List AVPacket) (p : AVPacket) (post : List AVPacket),
        ps = pre ++ p :: post ∧ p.stream_index = v ∧
        ((selectedPackets v pre).length : Int) < c ∧
        fatalStatuses (packet_loop ext v pre res c dec wr).trace = [] ∧
        (decode_packet ext p (packet_loop ext v pre res c dec wr).dec
          (packet_loop ext v pre res c dec wr).wr).res ≠ SUCCESS := by
  intro ps
  induction ps with
  | nil =>
    intro res c dec wr _ h
    simp [packet_loop, fatalStatuses, fatalStatusOf] at h
  | cons q ps ih =>
    intro res c dec wr hc h
    by_cases h1 : q.stream_index = v
    · have hdf := decode_packet_fatalStatuses ext q dec wr
      by_cases h2 : (decode_packet ext q dec wr).res = SUCCESS
      · rw [if_neg (by simpa using h2)] at hdf
        by_cases h3 : c - 1 ≤ 0
        · exfalso
          apply h
          simp only [packet_loop, if_pos h1, h2, ne_eq, not_true_eq_false, if_false, if_pos h3]
          simp [fatalStatuses, fatalStatusOf, hdf]
        · simp only [packet_loop, if_pos h1, h2, ne_eq, not_true_eq_false, if_false,
            if_neg h3] at h
          simp only [fatalStatuses, List.filterMap_cons, List.filterMap_append, fatalStatusOf,
            hdf, List.nil_append] at h
          obtain ⟨pre, p, post, e1, e2, e3, e4, e5⟩ := ih SUCCESS (c - 1)
            (decode_packet ext q dec wr).dec (decode_packet ext q dec wr).wr (by omega) h
          refine ⟨q :: pre, p, post, by rw [e1]; rfl, e2, ?_, ?_, ?_⟩
          · simp only [selectedPackets, List.filter_cons, h1, decide_True, if_true,
              List.length_cons] at e3 ⊢
            push_cast
            omega
          · simp only [fatalStatuses] at e4
            simp only [packet_loop, if_pos h1, h2, ne_eq, not_true_eq_false, if_false,
              if_neg h3]
            simp [fatalStatuses, fatalStatusOf, List.filterMap_append, hdf, e4]
          · simpa only [packet_loop, if_pos h1, h2, ne_eq, not_true_eq_false, if_false,
              if_neg h3] using e5
      · refine ⟨[], q, ps, rfl, h1, ?_, ?_, ?_⟩
        · simp only [selectedPackets, List.filter_nil, List.length_nil]
          push_cast
          omega
        · simp [packet_loop, fatalStatuses, fatalStatusOf]
        · simpa [packet_loop] using h2
    · simp only [packet_loop, if_neg h1] at h
      simp only [fatalStatuses, List.filterMap_cons, fatalStatusOf] at h
      obtain ⟨pre, p, post, e1, e2, e3, e4, e5⟩ := ih res c dec wr hc h
      refine ⟨q :: pre, p, post, by rw [e1]; rfl, e2, ?_, ?_, ?_⟩
      · simpa [selectedPackets, h1] using e3
      · simp only [fatalStatuses] at e4
        simp only [packet_loop, if_neg h1]
        simp [fatalStatuses, fatalStatusOf, e4]
      · simpa only [packet_loop, if_neg h1] using e5

/-- C5: in every run of `main` in which the decoder reports a fatal status
(a send that fails, or a receive that fails with another status than
`AVERROR(EAGAIN)` and `AVERROR_EOF`), the container splits at the rejected
packet `p` of the selected stream, with fewer than 8 packets of that stream
before it, none of them rejected.  `main` returns the decoder's status, which
is not zero and is the only fatal status of the run; the packets read are
those before `p` and `p`, none after it; the packets submitted are those of
the run on the packets before `p`, followed by `p`; the write calls and the
files written are those of the run on the packets before `p`. -/
theorem main_stops_at_rejected_packet {σ τ : Type} (ext : Externals σ τ) (inp : Input)
    (dec : σ) (wr : τ) (h : fatalStatuses (main ext inp dec wr).trace ≠ []) :
    ∃ (pre : List AVPacket) (p : AVPacket) (post : List AVPacket),
      inp.packets = pre ++ p :: post ∧
      p.stream_index = (select_stream inp).video_stream_index ∧
      (selectedPackets (select_stream inp).video_stream_index pre).length < 8 ∧
      fatalStatuses (main ext (inp.withPackets pre) dec wr).trace = [] ∧
      (main ext inp dec wr).ret ≠ 0 ∧
      fatalStatuses (main ext inp dec wr).trace = [(main ext inp dec wr).ret] ∧
      packetsRead (main ext inp dec wr).trace = pre ++ [p] ∧
      submitted (main ext inp dec wr).trace =
        submitted (main ext (inp.withPackets pre) dec wr).trace ++ [p] ∧
      writeCalls (main ext inp dec wr).trace =
        writeCalls (main ext (inp.withPackets pre) dec wr).trace ∧
      filesWritten (main ext inp dec wr).trace =
        filesWritten (main ext (inp.withPackets pre) dec wr).trace := by
  have hloop : reachesLoop inp := by
    by_contra hn
    rw [main_fatalStatuses, if_neg hn] at h
    exact h rfl
  rw [main_fatalStatuses, if_pos hloop] at h
  obtain ⟨pre, p, post, e1, e2, e3, e4, e5⟩ := packet_loop_fatal_split ext
    (select_stream inp).video_stream_index inp.packets SUCCESS 8 dec wr (by decide) h
  have hk : (selectedPackets (select_stream inp).video_stream_index pre).length < 8 := by
    exact_mod_cast e3
  obtain ⟨-, c2, c3, c4, c5, c6, c7⟩ :=
    main_at_rejected_packet ext inp dec wr pre post p hloop e1 e2 hk e4 e5
  refine ⟨pre, p, post, e1, e2, hk, ?_, c2, c3, c4, c5, c6, c7⟩
  rw [main_fatalStatuses, if_pos ((reachesLoop_withPackets inp pre).2 hloop),
    select_stream_withPackets]
  exact e4

/-- The theorem at a container whose fourth packet is malformed. -/
theorem main_stops_at_rejected_packet_witness :
    fatalStatuses (main directDecoder
      (sampleInput [⟨0, 5⟩, ⟨1, 1⟩, ⟨0, 6⟩, ⟨1, 0⟩, ⟨1, 3⟩]) 0 ()).trace ≠ [] ∧
    ∃ (pre : List AVPacket) (p : AVPacket) (post : List AVPacket),
      (sampleInput [⟨0, 5⟩, ⟨1, 1⟩, ⟨0, 6⟩, ⟨1, 0⟩, ⟨1, 3⟩]).packets = pre ++ p :: post ∧
      packetsRead (main directDecoder
        (sampleInput [⟨0, 5⟩, ⟨1, 1⟩, ⟨0, 6⟩, ⟨1, 0⟩, ⟨1, 3⟩]) 0 ()).trace = pre ++ [p] ∧
      filesWritten (main directDecoder
        (sampleInput [⟨0, 5⟩, ⟨1, 1⟩, ⟨0, 6⟩, ⟨1, 0⟩, ⟨1, 3⟩]) 0 ()).trace =
        filesWritten (main directDecoder
          ((sampleInput [⟨0, 5⟩, ⟨1, 1⟩, ⟨0, 6⟩, ⟨1, 0⟩, ⟨1, 3⟩]).withPackets pre) 0
          ()).trace := by
  refine ⟨by decide, ?_⟩
  obtain ⟨pre, p, post, h1, -, -, -, -, -, h7, -, -, h10⟩ :=
    main_stops_at_rejected_packet directDecoder
      (sampleInput [⟨0, 5⟩, ⟨1, 1⟩, ⟨0, 6⟩, ⟨1, 0⟩, ⟨1, 3⟩]) 0 () (by decide)
  exact ⟨pre, p, post, h1, h7, h10⟩

/-! ## The number of images -/

theorem decode_packet_filesWritten_of_good_writer {σ τ : Type} (ext : Externals σ τ)
    (hw : ∀ (t : τ) (path : String), (ext.imwrite t path).1 = true) (p : AVPacket) (dec : σ)
    (wr : τ) :
    List.filterMap fileWrittenOf (decode_packet ext p dec wr).trace =
      List.filterMap writeCallOf (decode_packet ext p dec wr).trace := by
  simp only [decode_packet]
  split_ifs <;> simp [fileWrittenOf, writeCallOf, hw]

theorem packet_loop_filesWritten_of_good_writer {σ τ : Type} (ext : Externals σ τ) (v : Int)
    (hw : ∀ (t : τ) (path : String), (ext.imwrite t path).1 = true) :
    ∀ (ps : List AVPacket) (res c : Int) (dec : σ) (wr : τ),
      filesWritten (packet_loop ext v ps res c dec wr).trace =
        writeCalls (packet_loop ext v ps res c dec wr).trace := by
  intro ps
  induction ps with
  | nil => intro res c dec wr; simp [packet_loop, filesWritten, writeCalls, fileWrittenOf,
      writeCallOf]
  | cons p ps ih =>
    intro res c dec wr
    have hd := decode_packet_filesWritten_of_good_writer ext hw p dec wr
    simp only [packet_loop]
    split_ifs with h1 h2 h3
    · simp [filesWritten, writeCalls, fileWrittenOf, writeCallOf, List.filterMap_append, hd]
    · simp [filesWritten, writeCalls, fileWrittenOf, writeCallOf, List.filterMap_append, hd]
    · have := ih (decode_packet ext p dec wr).res (c - 1) (decode_packet ext p dec wr).dec
        (decode_packet ext p dec wr).wr
      simp only [filesWritten, writeCalls] at this
      simp [filesWritten, writeCalls, fileWrittenOf, writeCallOf, List.filterMap_append, hd,
        this]
    · have := ih res c dec wr
      simp only [filesWritten, writeCalls] at this
      simp [filesWritten, writeCalls, fileWrittenOf, writeCallOf, this]

theorem packet_loop_frames {σ τ : Type} (ext : Externals σ τ) (v : Int) :
    ∀ (ps : List AVPacket) (res c : Int) (dec : σ) (wr : τ), 1 ≤ c → res = SUCCESS →
      fatalStatuses (packet_loop ext v ps res c dec wr).trace = [] →
      (packet_loop ext v ps res c dec wr).res = SUCCESS ∧
      (writeCalls (packet_loop ext v ps res c dec wr).trace).length =
        framesReceived ext ((selectedPackets v ps).take c.toNat) dec := by
  intro ps
  induction ps with
  | nil =>
    intro res c dec wr _ hres _
    simp [packet_loop, hres, writeCalls, writeCallOf, selectedPackets, framesReceived]
  | cons p ps ih =>
    intro res c dec wr hc hres hfatal
    by_cases h1 : p.stream_index = v
    · have hs : selectedPackets v (p :: ps) = p :: selectedPackets v ps := by
        simp [selectedPackets, h1]
      have hdf := decode_packet_fatalStatuses ext p dec wr
      by_cases h2 : (decode_packet ext p dec wr).res = SUCCESS
      · obtain ⟨s1, s2, s3⟩ := decode_packet_of_success ext p dec wr h2
        have hn : c.toNat = (c - 1).toNat + 1 := by omega
        rw [hs, hn, List.take_succ_cons]
        simp only [framesReceived]
        rw [← s3, ← s2]
        by_cases h3 : c - 1 ≤ 0
        · have h0 : (c - 1).toNat = 0 := by omega
          simp only [packet_loop, if_pos h1, h2, ne_eq, not_true_eq_false, if_false, if_pos h3]
          simp [h0, framesReceived, writeCalls, writeCallOf]
        · simp only [packet_loop, if_pos h1, h2, ne_eq, not_true_eq_false, if_false,
            if_neg h3] at hfatal ⊢
          simp only [fatalStatuses, List.filterMap_cons, List.filterMap_append, fatalStatusOf,
            List.append_eq_nil] at hfatal
          obtain ⟨i1, i2⟩ := ih SUCCESS (c - 1) (decode_packet ext p dec wr).dec
            (decode_packet ext p dec wr).wr (by omega) rfl hfatal.2
          refine ⟨i1, ?_⟩
          simp only [writeCalls] at i2
          simp [writeCalls, writeCallOf, List.filterMap_append, i2]
      · exfalso
        simp only [packet_loop, if_pos h1, ne_eq, h2, not_false_eq_true, if_true] at hfatal
        simp only [fatalStatuses, List.filterMap_cons, List.filterMap_append, fatalStatusOf,
          hdf, ne_eq, h2, not_false_eq_true, if_true] at hfatal
        simp at hfatal
    · have hs : selectedPackets v (p :: ps) = selectedPackets v ps := by
        simp [selectedPackets, h1]
      rw [hs]
      simp only [packet_loop, if_neg h1] at hfatal ⊢
      simp only [fatalStatuses, List.filterMap_cons, fatalStatusOf] at hfatal
      obtain ⟨i1, i2⟩ := ih res c dec wr hc hres hfatal
      refine ⟨i1, ?_⟩
      simp only [writeCalls] at i2
      simp [writeCalls, writeCallOf, i2]

/-- C1, as the code has it: when `main` reaches the packet loop and the
decoder reports nothing fatal, `main` returns 0 and calls the image writer
once for every frame the decoder hands over when each of the first 8 packets
of the selected stream is sent and followed by a single receive; the budget
of 8 counts packets, not frames.  When the writer never fails, each of these
calls writes a file. -/
theorem main_files_written {σ τ : Type} (ext : Externals σ τ) (inp : Input) (dec : σ)
    (wr : τ) (hloop : reachesLoop inp)
    (hfatal : fatalStatuses (main ext inp dec wr).trace = []) :
    (main ext inp dec wr).ret = 0 ∧
    (writeCalls (main ext inp dec wr).trace).length =
      framesReceived ext
        ((selectedPackets (select_stream inp).video_stream_index inp.packets).take 8) dec ∧
    ((∀ (t : τ) (path : String), (ext.imwrite t path).1 = true) →
      filesWritten (main ext inp dec wr).trace = writeCalls (main ext inp dec wr).trace) := by
  rw [main_fatalStatuses, if_pos hloop] at hfatal
  obtain ⟨h1, h2⟩ := packet_loop_frames ext (select_stream inp).video_stream_index inp.packets
    SUCCESS 8 dec wr (by decide) rfl hfatal
  refine ⟨?_, ?_, ?_⟩
  · rw [main_ret_of_reachesLoop ext inp dec wr hloop, h1]; rfl
  · rw [main_writeCalls, if_pos hloop, h2]; rfl
  · intro hw
    rw [main_filesWritten, main_writeCalls, if_pos hloop, if_pos hloop]
    exact packet_loop_filesWritten_of_good_writer ext _ hw _ _ _ _ _

/-- The theorem at a container of 3 video packets that each yield a frame:
3 images are written and `main` returns 0. -/
theorem main_files_written_witness :
    (main directDecoder (sampleInput (videoPackets 3)) 0 ()).ret = 0 ∧
    (filesWritten (main directDecoder (sampleInput (videoPackets 3)) 0 ()).trace).length = 3 := by
  have h := main_files_written directDecoder (sampleInput (videoPackets 3)) 0 () (by decide)
    (by decide)
  refine ⟨h.1, ?_⟩
  rw [h.2.2 (fun _ _ => rfl), h.2.1]
  decide

/-- C1, as the claim states it, fails: a decoder that holds one packet back
can produce 8 frames from the 9 packets of the video stream, none of its
statuses is fatal, and `main` writes 7 images, not `min 8 8`. -/
theorem files_written_not_min_frames_budget :
    reachesLoop (sampleInput (videoPackets 9)) ∧
    fatalStatuses (main delayedDecoder (sampleInput (videoPackets 9)) (0, 0) ()).trace = [] ∧
    framesAvailable delayedDecoder 16 (selectedPackets 1 (videoPackets 9)) (0, 0) = 8 ∧
    (filesWritten (main delayedDecoder (sampleInput (videoPackets 9)) (0, 0) ()).trace).length =
      7 ∧
    (filesWritten (main delayedDecoder (sampleInput (videoPackets 9)) (0, 0) ()).trace).length ≠
      min (framesAvailable delayedDecoder 16 (selectedPackets 1 (videoPackets 9)) (0, 0)) 8 := by
  decide

/-! ## The return value after a failed allocation -/

/-- C4, at the failing input: when `av_packet_alloc` or `av_frame_alloc`
returns a null pointer, `main` returns 0, the value `res` holds since
`avcodec_open2` succeeded. -/
theorem main_returns_zero_on_failed_alloc :
    (main directDecoder (allocFailureInput false true) 0 ()).ret = 0 ∧
    (main directDecoder (allocFailureInput true false) 0 ()).ret = 0 ∧
    packetsRead (main directDecoder (allocFailureInput false true) 0 ()).trace = [] ∧
    packetsRead (main directDecoder (allocFailureInput true false) 0 ()).trace = [] := by
  decide

/-! ## The path of an image -/

/-- C9: for every frame number `n` the path handed to `cv::imwrite` is the
decimal representation of `n` followed by `.jpg`, with nothing left of the
initial content `frame` of the stream; the representation of a natural number
`k` is a digit string of value `k`, that of `-(k + 1)` is a minus sign and the
representation of `k + 1`; the path is an injective function of `n`; and a
call of `decode_packet` writes to no path or to exactly the path of the frame
number the decoder reports. -/
theorem frame_path_decimal_jpg {σ τ : Type} (ext : Externals σ τ) (p : AVPacket) (dec : σ)
    (wr : τ) (n : Int) (k : Nat) :
    frame_path n = toString n ++ ".jpg" ∧
    decimalValue (toString (k : Int)).data 0 = k ∧
    toString (Int.negSucc k) = "-" ++ toString ((k + 1 : Nat) : Int) ∧
    Function.Injective frame_path ∧
    (writeCalls (decode_packet ext p dec wr).trace = [] ∨
      writeCalls (decode_packet ext p dec wr).trace =
        [toString (ext.frame_number (decode_packet ext p dec wr).dec) ++ ".jpg"]) := by
  refine ⟨frame_path_eq n, ?_, rfl, frame_path_injective, ?_⟩
  · have h := int_toString_data (k : Int)
    rw [show ((k : Nat) : Int) = Int.ofNat k from rfl] at h ⊢
    simp only at h
    rw [h]
    exact decimalValue_toDigitsCore (k + 1) k [] (by omega)
  · simp only [decode_packet]
    split_ifs
    · left; simp [writeCalls, writeCallOf]
    · left; simp [writeCalls, writeCallOf]
    · left; simp [writeCalls, writeCallOf]
    · right; simp [writeCalls, writeCallOf, frame_path_eq]

/-- The theorem at a container whose only video stream has no decoder. -/
theorem main_no_video_stream_witness :
    (main directDecoder noVideoInput 0 ()).ret = -1 ∧
    packetsRead (main directDecoder noVideoInput 0 ()).trace = [] ∧
    filesWritten (main directDecoder noVideoInput 0 ()).trace = [] :=
  have h := main_no_video_stream directDecoder noVideoInput 0 () (by decide) rfl rfl rfl
    (by decide)
  ⟨h.1, h.2.2.2.1, h.2.2.2.2.2.2⟩

/-- The theorem at a run that goes through the packet loop. -/
theorem main_releases_acquired_witness :
    heldAfter (main directDecoder (sampleInput (videoPackets 3)) 0 ()).trace [] = some [] ∧
    released (main directDecoder (sampleInput (videoPackets 3)) 0 ()).trace =
      (acquired (main directDecoder (sampleInput (videoPackets 3)) 0 ()).trace).reverse :=
  have h := main_releases_acquired directDecoder (sampleInput (videoPackets 3)) 0 ()
    (by decide) rfl
  ⟨h.1, h.2.1⟩

end DetailVideoInfo
